import Mathlib

/-!
Verification of the MVR soulzip archival pipeline (encoder.py, decoder.py,
validator.py, utils.py, gtd.py, layout_tools.py).

Modelling conventions:
- Python byte strings are `List Nat` with every entry below 256.
- Python text strings are their lists of Unicode code points, also `List Nat`;
  `toCP` converts a Lean string literal to that form.
- File reads become function arguments holding the file contents; file writes
  become returned values (a write log, last write wins).
- `json.dumps` / `json.loads`, `base64.b64encode` / `base64.b64decode` and
  `hashlib.sha256` are reimplemented with the semantics of the CPython
  functions the source calls: non-strict base64 with binascii's pad
  accounting after the str-to-ASCII step, compact JSON separators, the
  NaN/Infinity constants and last-binding-wins dict construction of
  `json.loads`, FIPS 180-4 SHA-256. Text-mode file reads (`open(p, 'r',
  encoding='utf-8')`) are strict UTF-8 decoding followed by
  universal-newlines translation.
- The Zstandard codec is an external library; it is modelled from the spec
  (section 4.2): a framed, chunk-streamed, losslessly invertible compressor
  whose decoder fails cleanly on anything the compressor did not produce.
- Recursions that are not structural take an explicit fuel argument, set to an
  amount the wrapper proves sufficient, so that every function evaluates by
  kernel reduction.
-/

set_option maxRecDepth 100000

/-- Code points of a Lean string literal, the model of a Python `str`. -/
def toCP (s : String) : List Nat := s.data.map Char.toNat

/-- Every entry is a byte value. -/
def allBytes (l : List Nat) : Bool := l.all (fun b => b < 256)

/-- A Unicode scalar value sequence: entries below 0x110000, no surrogates. -/
def scalarOk (l : List Nat) : Bool :=
  l.all (fun c => c < 1114112 && !(55296 ≤ c && c < 57344))

theorem allBytes_iff (l : List Nat) :
    allBytes l = true ↔ ∀ b ∈ l, b < 256 := by
  simp [allBytes]

theorem scalarOk_iff (l : List Nat) :
    scalarOk l = true ↔ ∀ c ∈ l, c < 1114112 ∧ (c < 55296 ∨ 57344 ≤ c) := by
  unfold scalarOk
  rw [List.all_eq_true]
  constructor
  · intro h c hc
    have := h c hc
    simp at this
    omega
  · intro h c hc
    have := h c hc
    simp
    omega

theorem scalarOk_cons (c : Nat) (cs : List Nat) (h : scalarOk (c :: cs) = true) :
    (c < 1114112 ∧ (c < 55296 ∨ 57344 ≤ c)) ∧ scalarOk cs = true := by
  rw [scalarOk_iff] at h
  refine ⟨h c (by simp), ?_⟩
  rw [scalarOk_iff]
  exact fun x hx => h x (by simp [hx])

/-! ## Python string helpers used by utils.py and decoder.py -/

/-- Model of `os.path.basename` (posixpath): everything after the last slash. -/
def os_path_basename (p : List Nat) : List Nat :=
  match p with
  | [] => []
  | c :: rest =>
    if rest.contains 47 then os_path_basename rest
    else if c = 47 then rest else c :: rest

/-- Model of `os.path.join dir name` for a relative `name`:
`dir + "/" + name`, with no separator added after an empty `dir` or a `dir`
already ending in a slash. -/
def os_path_join (d n : List Nat) : List Nat :=
  match d with
  | [] => n
  | _ => if d.getLast? = some 47 then d ++ n else d ++ 47 :: n

/-- Model of `str.split(sep)` for a one-character separator: the result is
never empty and empty fields are kept, as in Python. -/
def pySplit (sep : Nat) : List Nat → List (List Nat)
  | [] => [[]]
  | c :: cs =>
    match pySplit sep cs with
    | [] => [[c]]
    | g :: gs => if c = sep then [] :: g :: gs else (c :: g) :: gs

/-- Does `l` start with `pat`? -/
def startsWithSeq (pat l : List Nat) : Bool :=
  match pat, l with
  | [], _ => true
  | _ :: _, [] => false
  | p :: ps, c :: cs => p = c && startsWithSeq ps cs

/-- Model of the Python `in` test on strings: contiguous substring. -/
def containsSeq (pat : List Nat) : List Nat → Bool
  | [] => pat.isEmpty
  | c :: cs => startsWithSeq pat (c :: cs) || containsSeq pat cs

/-- Fuelled worker for `pyRemoveAll`. -/
def pyRemoveAllF (pat : List Nat) : Nat → List Nat → List Nat
  | 0, l => l
  | _ + 1, [] => []
  | fuel + 1, c :: cs =>
    if startsWithSeq pat (c :: cs) then pyRemoveAllF pat fuel ((c :: cs).drop pat.length)
    else c :: pyRemoveAllF pat fuel cs

/-- Model of `str.replace(pat, "")` for a nonempty `pat`: remove every
non-overlapping occurrence, scanning left to right. -/
def pyRemoveAll (pat l : List Nat) : List Nat := pyRemoveAllF pat l.length l

/-! ## UTF-8, the codec behind `.encode("utf-8")` and `.decode("utf-8")` -/

/-- UTF-8 encoding of one scalar value. -/
def utf8EncodeCp (n : Nat) : List Nat :=
  if n < 128 then [n]
  else if n < 2048 then [192 + n / 64, 128 + n % 64]
  else if n < 65536 then [224 + n / 4096, 128 + (n / 64) % 64, 128 + n % 64]
  else [240 + n / 262144, 128 + (n / 4096) % 64, 128 + (n / 64) % 64, 128 + n % 64]

/-- UTF-8 encoding of a code point sequence, the model of `str.encode`. -/
def utf8Encode (cps : List Nat) : List Nat := cps.flatMap utf8EncodeCp

/-- Is `b` a UTF-8 continuation byte? -/
def isCont (b : Nat) : Bool := 128 ≤ b && b < 192

/-- Fuelled worker for strict UTF-8 decoding. One unit of fuel per decoded
code point; each step consumes at least one byte, so byte length is enough. -/
def utf8DecodeF : Nat → List Nat → Option (List Nat)
  | _, [] => some []
  | 0, _ :: _ => none
  | fuel + 1, b :: rest =>
    if b < 128 then (utf8DecodeF fuel rest).map (fun l => b :: l)
    else if b < 194 then none
    else if b < 224 then
      match rest with
      | b1 :: r =>
        if isCont b1 then
          (utf8DecodeF fuel r).map (fun l => ((b - 192) * 64 + (b1 - 128)) :: l)
        else none
      | [] => none
    else if b < 240 then
      match rest with
      | b1 :: b2 :: r =>
        if isCont b1 && isCont b2 then
          let n := (b - 224) * 4096 + (b1 - 128) * 64 + (b2 - 128)
          if n < 2048 || (55296 ≤ n && n < 57344) then none
          else (utf8DecodeF fuel r).map (fun l => n :: l)
        else none
      | _ => none
    else if b < 245 then
      match rest with
      | b1 :: b2 :: b3 :: r =>
        if isCont b1 && isCont b2 && isCont b3 then
          let n := (b - 240) * 262144 + (b1 - 128) * 4096 + (b2 - 128) * 64 + (b3 - 128)
          if n < 65536 || 1114112 ≤ n then none
          else (utf8DecodeF fuel r).map (fun l => n :: l)
        else none
      | _ => none
    else none

/-- Strict UTF-8 decoding, the model of `bytes.decode("utf-8")`: rejects
truncated sequences, stray continuation bytes, overlong forms, surrogates and
values beyond 0x10FFFF, as the CPython strict codec does. -/
def utf8Decode (l : List Nat) : Option (List Nat) := utf8DecodeF l.length l

theorem utf8EncodeCp_bytes (n : Nat) (h : n < 1114112) :
    ∀ b ∈ utf8EncodeCp n, b < 256 := by
  intro b hb
  unfold utf8EncodeCp at hb
  by_cases h1 : n < 128
  · simp [h1] at hb; omega
  · by_cases h2 : n < 2048
    · have e1 : n / 64 < 32 := by omega
      simp [h1, h2] at hb
      rcases hb with h3 | h3 <;> omega
    · by_cases h3 : n < 65536
      · have e1 : n / 4096 < 16 := by omega
        have e2 : (n / 64) % 64 < 64 := Nat.mod_lt _ (by omega)
        have e3 : n % 64 < 64 := Nat.mod_lt _ (by omega)
        simp [h1, h2, h3] at hb
        rcases hb with h4 | h4 | h4 <;> omega
      · have e1 : n / 262144 < 5 := by omega
        have e2 : (n / 4096) % 64 < 64 := Nat.mod_lt _ (by omega)
        have e3 : (n / 64) % 64 < 64 := Nat.mod_lt _ (by omega)
        have e4 : n % 64 < 64 := Nat.mod_lt _ (by omega)
        simp [h1, h2, h3] at hb
        rcases hb with h5 | h5 | h5 | h5 <;> omega

theorem utf8Encode_bytes (l : List Nat) (h : scalarOk l = true) :
    allBytes (utf8Encode l) = true := by
  rw [scalarOk_iff] at h
  rw [allBytes_iff]
  intro b hb
  simp [utf8Encode] at hb
  obtain ⟨c, hc, hbc⟩ := hb
  exact utf8EncodeCp_bytes c (h c hc).1 b hbc

theorem utf8EncodeCp_ne_nil (n : Nat) : utf8EncodeCp n ≠ [] := by
  unfold utf8EncodeCp
  split
  · simp
  · split
    · simp
    · split <;> simp

theorem utf8DecodeF_encode (l : List Nat) : ∀ fuel, scalarOk l = true →
    l.length ≤ fuel → utf8DecodeF fuel (utf8Encode l) = some l := by
  induction l with
  | nil =>
    intro fuel _ _
    simp [utf8Encode]
    cases fuel <;> rfl
  | cons c cs ih =>
    intro fuel hs hf
    obtain ⟨⟨hc1, hc2⟩, hcs⟩ := scalarOk_cons c cs hs
    cases fuel with
    | zero => simp at hf
    | succ f =>
      have ihs := ih f hcs (by simp at hf; omega)
      have hexp : utf8Encode (c :: cs) = utf8EncodeCp c ++ utf8Encode cs := by
        simp [utf8Encode]
      rw [hexp]
      unfold utf8EncodeCp
      by_cases h1 : c < 128
      · simp only [if_pos h1, List.cons_append, List.nil_append]
        simp [utf8DecodeF, h1, ihs]
      · simp only [if_neg h1]
        by_cases h2 : c < 2048
        · simp only [if_pos h2, List.cons_append, List.nil_append]
          have e2 : 2 ≤ c / 64 := by omega
          have e1 : c / 64 < 32 := by omega
          have e3 : c % 64 < 64 := Nat.mod_lt _ (by omega)
          have g1 : ¬ (192 + c / 64 < 128) := by omega
          have g2 : ¬ (192 + c / 64 < 194) := by omega
          have g3 : 192 + c / 64 < 224 := by omega
          have g4 : isCont (128 + c % 64) = true := by simp [isCont]; omega
          simp only [utf8DecodeF, if_neg g1, if_neg g2, if_pos g3, g4, if_pos, ihs,
            Option.map_some']
          have hv : (192 + c / 64 - 192) * 64 + (128 + c % 64 - 128) = c := by omega
          rw [hv]
        · by_cases h3 : c < 65536
          · simp only [if_neg h2, if_pos h3, List.cons_append, List.nil_append]
            have e1 : c / 4096 < 16 := by omega
            have e2 : (c / 64) % 64 < 64 := Nat.mod_lt _ (by omega)
            have e3 : c % 64 < 64 := Nat.mod_lt _ (by omega)
            have g1 : ¬ (224 + c / 4096 < 128) := by omega
            have g2 : ¬ (224 + c / 4096 < 194) := by omega
            have g3 : ¬ (224 + c / 4096 < 224) := by omega
            have g4 : 224 + c / 4096 < 240 := by omega
            have g5 : isCont (128 + (c / 64) % 64) = true := by simp [isCont]; omega
            have g6 : isCont (128 + c % 64) = true := by simp [isCont]; omega
            have hval : (224 + c / 4096 - 224) * 4096 + (128 + (c / 64) % 64 - 128) * 64 +
                (128 + c % 64 - 128) = c := by
              have d1 := Nat.div_add_mod c 64
              have d2 := Nat.div_add_mod (c / 64) 64
              have d3 : c / 64 / 64 = c / 4096 := by rw [Nat.div_div_eq_div_mul]
              omega
            simp only [utf8DecodeF, if_neg g1, if_neg g2, if_neg g3, if_pos g4, g5, g6,
              Bool.and_self, if_pos, hval]
            have hn1 : (c < 2048 || (55296 ≤ c && c < 57344)) = false := by
              simp; omega
            simp [hn1, ihs]
          · simp only [if_neg h2, if_neg h3, List.cons_append, List.nil_append]
            have e1 : c / 262144 < 5 := by omega
            have e2 : (c / 4096) % 64 < 64 := Nat.mod_lt _ (by omega)
            have e3 : (c / 64) % 64 < 64 := Nat.mod_lt _ (by omega)
            have e4 : c % 64 < 64 := Nat.mod_lt _ (by omega)
            have g1 : ¬ (240 + c / 262144 < 128) := by omega
            have g2 : ¬ (240 + c / 262144 < 194) := by omega
            have g3 : ¬ (240 + c / 262144 < 224) := by omega
            have g4 : ¬ (240 + c / 262144 < 240) := by omega
            have g5 : 240 + c / 262144 < 245 := by omega
            have g6 : isCont (128 + (c / 4096) % 64) = true := by simp [isCont]; omega
            have g7 : isCont (128 + (c / 64) % 64) = true := by simp [isCont]; omega
            have g8 : isCont (128 + c % 64) = true := by simp [isCont]; omega
            have hval : (240 + c / 262144 - 240) * 262144 +
                (128 + (c / 4096) % 64 - 128) * 4096 +
                (128 + (c / 64) % 64 - 128) * 64 + (128 + c % 64 - 128) = c := by
              have d1 := Nat.div_add_mod c 64
              have d2 := Nat.div_add_mod (c / 64) 64
              have d3 := Nat.div_add_mod (c / 4096) 64
              have d4 : c / 64 / 64 = c / 4096 := by rw [Nat.div_div_eq_div_mul]
              have d5 : c / 4096 / 64 = c / 262144 := by rw [Nat.div_div_eq_div_mul]
              omega
            simp only [utf8DecodeF, if_neg g1, if_neg g2, if_neg g3, if_neg g4, if_pos g5,
              g6, g7, g8, Bool.and_self, if_pos, hval]
            have hn1 : (c < 65536 || 1114112 ≤ c) = false := by simp; omega
            simp [hn1, ihs]

theorem utf8Encode_length_ge (l : List Nat) : l.length ≤ (utf8Encode l).length := by
  induction l with
  | nil => simp [utf8Encode]
  | cons c cs ih =>
    have h : utf8Encode (c :: cs) = utf8EncodeCp c ++ utf8Encode cs := by
      simp [utf8Encode]
    rw [h, List.length_append, List.length_cons]
    have := utf8EncodeCp_ne_nil c
    have h1 : 1 ≤ (utf8EncodeCp c).length := by
      cases hc : utf8EncodeCp c
      · exact absurd hc this
      · simp
    omega

theorem utf8Decode_encode (l : List Nat) (h : scalarOk l = true) :
    utf8Decode (utf8Encode l) = some l :=
  utf8DecodeF_encode l (utf8Encode l).length h (utf8Encode_length_ge l)

/-! ## Base64, the codec behind `base64.b64encode` and `base64.b64decode` -/

/-- Standard base64 alphabet, value to character code. -/
def b64alpha (v : Nat) : Nat :=
  if v < 26 then 65 + v
  else if v < 52 then 97 + (v - 26)
  else if v < 62 then 48 + (v - 52)
  else if v = 62 then 43 else 47

/-- Standard base64 alphabet, character code to value. -/
def b64val (c : Nat) : Option Nat :=
  if 65 ≤ c ∧ c ≤ 90 then some (c - 65)
  else if 97 ≤ c ∧ c ≤ 122 then some (c - 97 + 26)
  else if 48 ≤ c ∧ c ≤ 57 then some (c - 48 + 52)
  else if c = 43 then some 62
  else if c = 47 then some 63
  else none

/-- Model of `base64.b64encode`: canonical encoding with padding. -/
def b64encode : List Nat → List Nat
  | b0 :: b1 :: b2 :: rest =>
    b64alpha (b0 / 4) :: b64alpha ((b0 % 4) * 16 + b1 / 16) ::
      b64alpha ((b1 % 16) * 4 + b2 / 64) :: b64alpha (b2 % 64) :: b64encode rest
  | [b0, b1] => [b64alpha (b0 / 4), b64alpha ((b0 % 4) * 16 + b1 / 16),
      b64alpha ((b1 % 16) * 4), 61]
  | [b0] => [b64alpha (b0 / 4), b64alpha ((b0 % 4) * 16), 61, 61]
  | [] => []

/-- The three bytes of a full base64 quad. -/
def emit3 (q : List Nat) : List Nat :=
  match q with
  | [v0, v1, v2, v3] => [v0 * 4 + v1 / 16, (v1 % 16) * 16 + v2 / 4, (v2 % 4) * 64 + v3]
  | _ => []

/-- Bytes recovered from a quad ended early by padding. -/
def emitLeftover (q : List Nat) : List Nat :=
  match q with
  | [v0, v1] => [v0 * 4 + v1 / 16]
  | [v0, v1, v2] => [v0 * 4 + v1 / 16, (v1 % 16) * 16 + v2 / 4]
  | _ => []

/-- Model of CPython `binascii.a2b_base64` in its default non-strict mode,
the behaviour of `base64.b64decode(data)` as called by `safe_b64_decode`:
characters outside the alphabet are silently discarded (without touching
the pad count), surplus bits of a final partial quad are silently dropped
(so non-canonical encodings are accepted), a pad character is counted only
while the current quad holds at least two data characters (otherwise it is
skipped), every data character resets the pad count, padding that brings
the quad count to four ends the scan with everything after it ignored, and
the scan fails (binascii.Error, a ValueError) exactly when data characters
are left in an unterminated quad at the end of input. -/
def a2bBase64 : List Nat → List Nat → Nat → Except Unit (List Nat)
  | [], q, _ => if q.length = 0 then .ok [] else .error ()
  | c :: rest, q, pads =>
    if c = 61 then
      if 2 ≤ q.length then
        if 4 ≤ q.length + pads + 1 then .ok (emitLeftover q)
        else a2bBase64 rest q (pads + 1)
      else a2bBase64 rest q pads
    else
      match b64val c with
      | some v =>
        if (q ++ [v]).length = 4 then
          (a2bBase64 rest [] 0).map (fun out => emit3 (q ++ [v]) ++ out)
        else a2bBase64 rest (q ++ [v]) 0
      | none => a2bBase64 rest q pads

/-- Model of `base64.b64decode` with default arguments on a `str` argument,
as `safe_b64_decode` calls it: the string is first encoded as ASCII - a
code point of 128 or above raises ValueError before any scanning - and the
resulting bytes go through the non-strict `binascii.a2b_base64` scan. -/
def pyB64Decode (s : List Nat) : Except Unit (List Nat) :=
  if s.all (fun c => c < 128) then a2bBase64 s [] 0 else .error ()

theorem b64val_alpha : ∀ v < 64, b64val (b64alpha v) = some v := by decide

theorem b64alpha_lt : ∀ v < 64, b64alpha v < 128 := by decide

theorem b64alpha_ne_61 : ∀ v < 64, b64alpha v ≠ 61 := by decide

theorem b64encode_ascii (b : List Nat) (h : allBytes b = true) :
    ∀ c ∈ b64encode b, c < 128 := by
  induction b using b64encode.induct with
  | case1 b0 b1 b2 rest ih =>
    rw [allBytes_iff] at h
    have h0 : b0 < 256 := h b0 (by simp)
    have h1 : b1 < 256 := h b1 (by simp)
    have h2 : b2 < 256 := h b2 (by simp)
    have hrest : allBytes rest = true := by
      rw [allBytes_iff]; exact fun x hx => h x (by simp [hx])
    intro c hc
    simp [b64encode] at hc
    rcases hc with rfl | rfl | rfl | rfl | hc
    · exact b64alpha_lt _ (by omega)
    · exact b64alpha_lt _ (by omega)
    · exact b64alpha_lt _ (by omega)
    · exact b64alpha_lt _ (by omega)
    · exact ih hrest c hc
  | case2 b0 b1 =>
    rw [allBytes_iff] at h
    have h0 : b0 < 256 := h b0 (by simp)
    have h1 : b1 < 256 := h b1 (by simp)
    intro c hc
    simp [b64encode] at hc
    rcases hc with rfl | rfl | rfl | rfl
    · exact b64alpha_lt _ (by omega)
    · exact b64alpha_lt _ (by omega)
    · exact b64alpha_lt _ (by omega)
    · omega
  | case3 b0 =>
    rw [allBytes_iff] at h
    have h0 : b0 < 256 := h b0 (by simp)
    intro c hc
    simp [b64encode] at hc
    rcases hc with rfl | rfl | rfl
    · exact b64alpha_lt _ (by omega)
    · exact b64alpha_lt _ (by omega)
    · omega
  | case4 => simp [b64encode]

theorem a2bBase64_encode (b : List Nat) (h : allBytes b = true) :
    a2bBase64 (b64encode b) [] 0 = .ok b := by
  induction b using b64encode.induct with
  | case1 b0 b1 b2 rest ih =>
    rw [allBytes_iff] at h
    have h0 : b0 < 256 := h b0 (by simp)
    have h1 : b1 < 256 := h b1 (by simp)
    have h2 : b2 < 256 := h b2 (by simp)
    have hrest : allBytes rest = true := by
      rw [allBytes_iff]; exact fun x hx => h x (by simp [hx])
    have v0 : b64val (b64alpha (b0 / 4)) = some (b0 / 4) := b64val_alpha _ (by omega)
    have v1 : b64val (b64alpha ((b0 % 4) * 16 + b1 / 16)) = some ((b0 % 4) * 16 + b1 / 16) :=
      b64val_alpha _ (by omega)
    have v2 : b64val (b64alpha ((b1 % 16) * 4 + b2 / 64)) = some ((b1 % 16) * 4 + b2 / 64) :=
      b64val_alpha _ (by omega)
    have v3 : b64val (b64alpha (b2 % 64)) = some (b2 % 64) := b64val_alpha _ (by omega)
    have n0 : b64alpha (b0 / 4) ≠ 61 := b64alpha_ne_61 _ (by omega)
    have n1 : b64alpha ((b0 % 4) * 16 + b1 / 16) ≠ 61 := b64alpha_ne_61 _ (by omega)
    have n2 : b64alpha ((b1 % 16) * 4 + b2 / 64) ≠ 61 := b64alpha_ne_61 _ (by omega)
    have n3 : b64alpha (b2 % 64) ≠ 61 := b64alpha_ne_61 _ (by omega)
    rw [show b64encode (b0 :: b1 :: b2 :: rest) =
      b64alpha (b0 / 4) :: b64alpha ((b0 % 4) * 16 + b1 / 16) ::
        b64alpha ((b1 % 16) * 4 + b2 / 64) :: b64alpha (b2 % 64) :: b64encode rest from rfl]
    simp only [a2bBase64, if_neg n0, if_neg n1, if_neg n2, if_neg n3, v0, v1, v2, v3]
    simp only [List.nil_append, List.length_cons, List.length_nil, List.length_append,
      List.cons_append, List.length_singleton]
    norm_num
    rw [ih hrest]
    simp [emit3, Except.map]
    constructor
    · omega
    constructor
    · omega
    · omega
  | case2 b0 b1 =>
    rw [allBytes_iff] at h
    have h0 : b0 < 256 := h b0 (by simp)
    have h1 : b1 < 256 := h b1 (by simp)
    have v0 : b64val (b64alpha (b0 / 4)) = some (b0 / 4) := b64val_alpha _ (by omega)
    have v1 : b64val (b64alpha ((b0 % 4) * 16 + b1 / 16)) = some ((b0 % 4) * 16 + b1 / 16) :=
      b64val_alpha _ (by omega)
    have v2 : b64val (b64alpha ((b1 % 16) * 4)) = some ((b1 % 16) * 4) :=
      b64val_alpha _ (by omega)
    have n0 : b64alpha (b0 / 4) ≠ 61 := b64alpha_ne_61 _ (by omega)
    have n1 : b64alpha ((b0 % 4) * 16 + b1 / 16) ≠ 61 := b64alpha_ne_61 _ (by omega)
    have n2 : b64alpha ((b1 % 16) * 4) ≠ 61 := b64alpha_ne_61 _ (by omega)
    rw [show b64encode [b0, b1] = [b64alpha (b0 / 4), b64alpha ((b0 % 4) * 16 + b1 / 16),
      b64alpha ((b1 % 16) * 4), 61] from rfl]
    simp only [a2bBase64, if_neg n0, if_neg n1, if_neg n2, v0, v1, v2]
    norm_num
    simp [emitLeftover]
    omega
  | case3 b0 =>
    rw [allBytes_iff] at h
    have h0 : b0 < 256 := h b0 (by simp)
    have v0 : b64val (b64alpha (b0 / 4)) = some (b0 / 4) := b64val_alpha _ (by omega)
    have v1 : b64val (b64alpha ((b0 % 4) * 16)) = some ((b0 % 4) * 16) :=
      b64val_alpha _ (by omega)
    have n0 : b64alpha (b0 / 4) ≠ 61 := b64alpha_ne_61 _ (by omega)
    have n1 : b64alpha ((b0 % 4) * 16) ≠ 61 := b64alpha_ne_61 _ (by omega)
    rw [show b64encode [b0] = [b64alpha (b0 / 4), b64alpha ((b0 % 4) * 16), 61, 61] from rfl]
    simp only [a2bBase64, if_neg n0, if_neg n1, v0, v1]
    norm_num
    simp [emitLeftover]
    omega
  | case4 => rfl

/-- The base64 round trip used for both payloads. -/
theorem pyB64Decode_encode (b : List Nat) (h : allBytes b = true) :
    pyB64Decode (b64encode b) = .ok b := by
  unfold pyB64Decode
  rw [if_pos (by
    rw [List.all_eq_true]
    intro c hc
    exact decide_eq_true (b64encode_ascii b h c hc))]
  exact a2bBase64_encode b h

/-! ## SHA-256, the hash behind `hashlib.sha256(...).hexdigest()` -/

/-- Truncation to a 32-bit word. -/
def w32 (x : Nat) : Nat := x % 4294967296

/-- Right rotation of a 32-bit word. -/
def rotr32 (n x : Nat) : Nat := x / 2 ^ n + (x % 2 ^ n) * 2 ^ (32 - n)

/-- The SHA-256 round constants (FIPS 180-4). -/
def shaK : List Nat :=
  [1116352408, 1899447441, 3049323471, 3921009573, 961987163, 1508970993,
   2453635748, 2870763221, 3624381080, 310598401, 607225278, 1426881987,
   1925078388, 2162078206, 2614888103, 3248222580, 3835390401, 4022224774,
   264347078, 604807628, 770255983, 1249150122, 1555081692, 1996064986,
   2554220882, 2821834349, 2952996808, 3210313671, 3336571891, 3584528711,
   113926993, 338241895, 666307205, 773529912, 1294757372, 1396182291,
   1695183700, 1986661051, 2177026350, 2456956037, 2730485921, 2820302411,
   3259730800, 3345764771, 3516065817, 3600352804, 4094571909, 275423344,
   430227734, 506948616, 659060556, 883997877, 958139571, 1322822218,
   1537002063, 1747873779, 1955562222, 2024104815, 2227730452, 2361852424,
   2428436474, 2756734187, 3204031479, 3329325298]

/-- The SHA-256 initial hash value (FIPS 180-4). -/
def shaH0 : List Nat :=
  [1779033703, 3144134277, 1013904242, 2773480762,
   1359893119, 2600822924, 528734635, 1541459225]

/-- Small sigma 0. -/
def ssig0 (x : Nat) : Nat := (rotr32 7 x) ^^^ (rotr32 18 x) ^^^ (x / 8)

/-- Small sigma 1. -/
def ssig1 (x : Nat) : Nat := (rotr32 17 x) ^^^ (rotr32 19 x) ^^^ (x / 1024)

/-- Big sigma 0. -/
def bsig0 (x : Nat) : Nat := (rotr32 2 x) ^^^ (rotr32 13 x) ^^^ (rotr32 22 x)

/-- Big sigma 1. -/
def bsig1 (x : Nat) : Nat := (rotr32 6 x) ^^^ (rotr32 11 x) ^^^ (rotr32 25 x)

/-- Bitwise complement within 32 bits (every state word stays below 2^32). -/
def not32 (x : Nat) : Nat := 4294967295 - x % 4294967296

/-- The SHA-256 choose function. -/
def shaCh (e f g : Nat) : Nat := (e &&& f) ^^^ (not32 e &&& g)

/-- The SHA-256 majority function. -/
def shaMaj (a b c : Nat) : Nat := (a &&& b) ^^^ (a &&& c) ^^^ (b &&& c)

/-- Extend the 16 block words to the 64-entry message schedule. -/
def shaExtend : Nat → List Nat → List Nat
  | 0, ws => ws
  | n + 1, ws =>
    let l := ws.length
    let nw := w32 (ssig1 (ws.getD (l - 2) 0) + ws.getD (l - 7) 0 +
      ssig0 (ws.getD (l - 15) 0) + ws.getD (l - 16) 0)
    shaExtend n (ws ++ [nw])

/-- One pass of the 64 SHA-256 rounds over a zipped list of round constants
and schedule words. -/
def shaRounds : List Nat → List (Nat × Nat) → List Nat
  | st, [] => st
  | st, (k, w) :: rest =>
    match st with
    | [a, b, c, d, e, f, g, h] =>
      let t1 := w32 (h + bsig1 e + shaCh e f g + k + w)
      let t2 := w32 (bsig0 a + shaMaj a b c)
      shaRounds [w32 (t1 + t2), a, b, c, w32 (d + t1), e, f, g] rest
    | _ => st

/-- Compress one 16-word block into the running hash value. -/
def shaCompress (h : List Nat) (block : List Nat) : List Nat :=
  let ws := shaExtend 48 block
  let fin := shaRounds h (shaK.zip ws)
  (h.zip fin).map (fun p => w32 (p.1 + p.2))

/-- Split a list into chunks of `k` elements (fuelled). -/
def chunksOfF (k : Nat) : Nat → List Nat → List (List Nat)
  | 0, _ => []
  | _ + 1, [] => []
  | fuel + 1, l => l.take k :: chunksOfF k fuel (l.drop k)

/-- Split a list into chunks of `k` elements; the last may be short. -/
def chunksOf (k : Nat) (l : List Nat) : List (List Nat) := chunksOfF k l.length l

/-- Big-endian bytes of `n`, `w` bytes wide. -/
def beBytes : Nat → Nat → List Nat
  | 0, _ => []
  | w + 1, n => n / 256 ^ w % 256 :: beBytes w n

/-- SHA-256 message padding: a 0x80 byte, zeros to 56 mod 64, then the bit
length in 8 big-endian bytes. -/
def shaPad (m : List Nat) : List Nat :=
  m ++ 128 :: List.replicate ((119 - m.length % 64) % 64) 0 ++
    beBytes 8 (8 * m.length % 2 ^ 64)

/-- One block of padded bytes as 16 big-endian 32-bit words. -/
def words16 (block : List Nat) : List Nat :=
  (chunksOf 4 block).map (fun c =>
    c.getD 0 0 * 16777216 + c.getD 1 0 * 65536 + c.getD 2 0 * 256 + c.getD 3 0)

/-- SHA-256 of a byte sequence, as eight 32-bit words. -/
def sha256 (m : List Nat) : List Nat :=
  ((chunksOf 64 (shaPad m)).map words16).foldl shaCompress shaH0

/-- Lowercase hex digit. -/
def hexLower (n : Nat) : Nat := if n < 10 then 48 + n else 87 + n

/-- Eight lowercase hex digits of a 32-bit word, most significant first. -/
def toHex8 (x : Nat) : List Nat :=
  [hexLower (x / 268435456 % 16), hexLower (x / 16777216 % 16),
   hexLower (x / 1048576 % 16), hexLower (x / 65536 % 16),
   hexLower (x / 4096 % 16), hexLower (x / 256 % 16),
   hexLower (x / 16 % 16), hexLower (x % 16)]

/-- Model of `hashlib.sha256(data).hexdigest()`: 64 lowercase hex code
points. -/
def sha256hex (m : List Nat) : List Nat := (sha256 m).flatMap toHex8

/-- Model of the argument dispatch in `generate_sha256_hash`: a `str` is
encoded as UTF-8 first, `bytes` hash as they are. -/
inductive PyData where
  | str (s : List Nat)
  | bytes (b : List Nat)

/-- Model of `utils.generate_sha256_hash`. -/
def generate_sha256_hash : PyData → List Nat
  | .str s => sha256hex (utf8Encode s)
  | .bytes b => sha256hex b

/-! ## JSON, the serializer behind `json.dumps(..., ensure_ascii=False)` and
`json.loads`.

A document is modelled over code points. Numbers are carried as their decimal
literal (the repr form CPython prints and reparses unchanged); all numeric
values in this repository are the constant layout coordinates, whose reprs are
exact. -/

inductive Json where
  | str (s : List Nat)
  | num (lit : List Nat)
  | bool (b : Bool)
  | null
  | arr (elems : List Json)
  | obj (fields : List (List Nat × Json))

/-- JSON string escaping as `json.encoder` does with `ensure_ascii=False`:
quote, backslash and control characters are escaped, everything else is
copied. -/
def escCp (c : Nat) : List Nat :=
  if c = 34 then [92, 34]
  else if c = 92 then [92, 92]
  else if c = 8 then [92, 98]
  else if c = 9 then [92, 116]
  else if c = 10 then [92, 110]
  else if c = 12 then [92, 102]
  else if c = 13 then [92, 114]
  else if c < 32 then [92, 117, 48, 48, hexLower (c / 16), hexLower (c % 16)]
  else [c]

/-- Escape a whole string body. -/
def escStr (s : List Nat) : List Nat := s.flatMap escCp

/-! Rendering with the default compact separators of `json.dumps`:
`", "` between items and `": "` after keys. -/

mutual

def render : Json → List Nat
  | .str s => 34 :: escStr s ++ [34]
  | .num lit => lit
  | .bool true => [116, 114, 117, 101]
  | .bool false => [102, 97, 108, 115, 101]
  | .null => [110, 117, 108, 108]
  | .arr xs => 91 :: renderElems xs ++ [93]
  | .obj kvs => 123 :: renderFields kvs ++ [125]

def renderElems : List Json → List Nat
  | [] => []
  | [x] => render x
  | x :: y :: rest => render x ++ 44 :: 32 :: renderElems (y :: rest)

def renderFields : List (List Nat × Json) → List Nat
  | [] => []
  | [(k, v)] => 34 :: escStr k ++ 34 :: 58 :: 32 :: render v
  | (k, v) :: f :: rest =>
    34 :: escStr k ++ 34 :: 58 :: 32 :: render v ++ 44 :: 32 :: renderFields (f :: rest)

end

/-- Does an object field list bind `k`? -/
def hasKey : List (List Nat × Json) → List Nat → Bool
  | [], _ => false
  | (k2, _) :: rest, k => k2 = k || hasKey rest k

/-- Field lookup, last binding wins: `json.loads` builds a Python dict in
which a repeated key keeps its last value. -/
def lookupField : List (List Nat × Json) → List Nat → Option Json
  | [], _ => none
  | (k2, v) :: rest, k =>
    match lookupField rest k with
    | some r => some r
    | none => if k2 = k then some v else none

/-- Model of `d[k]` on a parsed document: `none` both for a missing key
(Python KeyError) and for indexing a non-object (Python TypeError). -/
def jsonGet (j : Json) (k : List Nat) : Option Json :=
  match j with
  | .obj kvs => lookupField kvs k
  | _ => none

/-- The keys of a document when it is an object. -/
def topKeys (j : Json) : List (List Nat) :=
  match j with
  | .obj kvs => kvs.map (fun kv => kv.1)
  | _ => []

/-! ### The scanner behind `json.loads` -/

/-- JSON whitespace. -/
def isWsCp (c : Nat) : Bool := c = 32 || c = 9 || c = 10 || c = 13

/-- Skip insignificant whitespace. -/
def skipWs (l : List Nat) : List Nat := l.dropWhile isWsCp

/-- A decimal digit. -/
def isDigitCp (c : Nat) : Bool := 48 ≤ c && c ≤ 57

/-- Leading digits and the remainder. -/
def scanDigits (l : List Nat) : List Nat × List Nat :=
  (l.takeWhile isDigitCp, l.dropWhile isDigitCp)

/-- The integer part of the JSON number grammar: `0` or a nonzero digit
followed by digits. -/
def parseIntPart : List Nat → Option (List Nat × List Nat)
  | [] => none
  | c :: rest =>
    if c = 48 then some ([48], rest)
    else if 49 ≤ c ∧ c ≤ 57 then
      let p := scanDigits rest
      some (c :: p.1, p.2)
    else none

/-- The optional fraction part; all or nothing, as the scanner regex. -/
def parseFracPart (l : List Nat) : List Nat × List Nat :=
  match l with
  | [] => ([], [])
  | c :: rest =>
    if c = 46 then
      let p := scanDigits rest
      if p.1.isEmpty then ([], c :: rest) else (46 :: p.1, p.2)
    else ([], c :: rest)

/-- The optional exponent part; all or nothing, as the scanner regex. -/
def parseExpPart (l : List Nat) : List Nat × List Nat :=
  match l with
  | [] => ([], [])
  | e :: rest =>
    if e = 101 ∨ e = 69 then
      let sg : List Nat × List Nat :=
        match rest with
        | [] => ([], [])
        | s :: r => if s = 43 ∨ s = 45 then ([s], r) else ([], s :: r)
      let p := scanDigits sg.2
      if p.1.isEmpty then ([], e :: rest) else (e :: sg.1 ++ p.1, p.2)
    else ([], e :: rest)

/-- The unsigned part of a number token: integer part, then the optional
fraction and exponent. -/
def numCore (x : List Nat) : Option (List Nat × List Nat) :=
  match parseIntPart x with
  | none => none
  | some (ip, r1) =>
    let fp := parseFracPart r1
    let ep := parseExpPart fp.2
    some (ip ++ fp.1 ++ ep.1, ep.2)

/-- The maximal number token at the head of the input, per the scanner
regex `(-?(?:0|[1-9]\d*))(\.\d+)?([eE][-+]?\d+)?`. -/
def parseNumberTok (l : List Nat) : Option (List Nat × List Nat) :=
  match l with
  | [] => none
  | c :: r =>
    if c = 45 then (numCore r).map (fun p => (45 :: p.1, p.2))
    else numCore (c :: r)

/-- Four hex digits. -/
def parseHex4 : List Nat → Option (Nat × List Nat)
  | a :: b :: c :: d :: r =>
    match hexv a, hexv b, hexv c, hexv d with
    | some x, some y, some z, some w => some (x * 4096 + y * 256 + z * 16 + w, r)
    | _, _, _, _ => none
  | _ => none
where
  /-- One hex digit, either case. -/
  hexv (c : Nat) : Option Nat :=
    if 48 ≤ c ∧ c ≤ 57 then some (c - 48)
    else if 97 ≤ c ∧ c ≤ 102 then some (c - 87)
    else if 65 ≤ c ∧ c ≤ 70 then some (c - 55)
    else none

/-- Fuelled worker reading a string body after the opening quote, as
`py_scanstring` with `strict=True`: escapes are decoded, surrogate escape
pairs are joined, a lone surrogate escape is kept, a raw control character is
an error. Each step consumes at least one code point. -/
def parseStringBodyF : Nat → List Nat → Option (List Nat × List Nat)
  | 0, _ => none
  | _ + 1, [] => none
  | fuel + 1, c :: rest =>
    if c = 34 then some ([], rest)
    else if c = 92 then
      match rest with
      | [] => none
      | e :: r2 =>
        if e = 34 ∨ e = 92 ∨ e = 47 then
          (parseStringBodyF fuel r2).map (fun p => (e :: p.1, p.2))
        else if e = 98 then (parseStringBodyF fuel r2).map (fun p => (8 :: p.1, p.2))
        else if e = 102 then (parseStringBodyF fuel r2).map (fun p => (12 :: p.1, p.2))
        else if e = 110 then (parseStringBodyF fuel r2).map (fun p => (10 :: p.1, p.2))
        else if e = 114 then (parseStringBodyF fuel r2).map (fun p => (13 :: p.1, p.2))
        else if e = 116 then (parseStringBodyF fuel r2).map (fun p => (9 :: p.1, p.2))
        else if e = 117 then
          match parseHex4 r2 with
          | none => none
          | some (n, r3) =>
            if 55296 ≤ n ∧ n < 56320 then
              match r3 with
              | 92 :: 117 :: r4 =>
                match parseHex4 r4 with
                | some (n2, r5) =>
                  if 56320 ≤ n2 ∧ n2 < 57344 then
                    (parseStringBodyF fuel r5).map
                      (fun p => ((65536 + (n - 55296) * 1024 + (n2 - 56320)) :: p.1, p.2))
                  else (parseStringBodyF fuel r3).map (fun p => (n :: p.1, p.2))
                | none => (parseStringBodyF fuel r3).map (fun p => (n :: p.1, p.2))
              | _ => (parseStringBodyF fuel r3).map (fun p => (n :: p.1, p.2))
            else (parseStringBodyF fuel r3).map (fun p => (n :: p.1, p.2))
        else none
    else if c < 32 then none
    else (parseStringBodyF fuel rest).map (fun p => (c :: p.1, p.2))

/-- Read a string body after the opening quote. -/
def parseStringBody (l : List Nat) : Option (List Nat × List Nat) :=
  parseStringBodyF l.length l

/-! Fuelled mutual scanner for one value, array items and object members.
One unit of fuel is spent per structural step, so input length plus one is
always enough. -/

mutual

def parseVal : Nat → List Nat → Option (Json × List Nat)
  | 0, _ => none
  | fuel + 1, cs =>
    match cs with
    | [] => none
    | c :: rest =>
      if c = 34 then (parseStringBody rest).map (fun p => (Json.str p.1, p.2))
      else if c = 123 then
        match skipWs rest with
        | [] => none
        | c2 :: r2 =>
          if c2 = 125 then some (Json.obj [], r2)
          else (parseObjItems fuel (c2 :: r2)).map (fun p => (Json.obj p.1, p.2))
      else if c = 91 then
        match skipWs rest with
        | [] => none
        | c2 :: r2 =>
          if c2 = 93 then some (Json.arr [], r2)
          else (parseArrItems fuel (c2 :: r2)).map (fun p => (Json.arr p.1, p.2))
      else if c = 116 then
        match rest with
        | 114 :: 117 :: 101 :: r => some (Json.bool true, r)
        | _ => none
      else if c = 102 then
        match rest with
        | 97 :: 108 :: 115 :: 101 :: r => some (Json.bool false, r)
        | _ => none
      else if c = 110 then
        match rest with
        | 117 :: 108 :: 108 :: r => some (Json.null, r)
        | _ => none
      else
        match parseNumberTok (c :: rest) with
        | some p => some (Json.num p.1, p.2)
        | none =>
          if c = 78 then
            match rest with
            | 97 :: 78 :: r => some (Json.num (toCP "NaN"), r)
            | _ => none
          else if c = 73 then
            match rest with
            | 110 :: 102 :: 105 :: 110 :: 105 :: 116 :: 121 :: r =>
              some (Json.num (toCP "Infinity"), r)
            | _ => none
          else if c = 45 then
            match rest with
            | 73 :: 110 :: 102 :: 105 :: 110 :: 105 :: 116 :: 121 :: r =>
              some (Json.num (toCP "-Infinity"), r)
            | _ => none
          else none

def parseArrItems : Nat → List Nat → Option (List Json × List Nat)
  | 0, _ => none
  | fuel + 1, cs =>
    match parseVal fuel cs with
    | none => none
    | some (v, r) =>
      match skipWs r with
      | [] => none
      | c :: r2 =>
        if c = 44 then (parseArrItems fuel (skipWs r2)).map (fun p => (v :: p.1, p.2))
        else if c = 93 then some ([v], r2)
        else none

def parseObjItems : Nat → List Nat → Option (List (List Nat × Json) × List Nat)
  | 0, _ => none
  | fuel + 1, cs =>
    match cs with
    | [] => none
    | c :: rest =>
      if c = 34 then
        match parseStringBody rest with
        | none => none
        | some (k, r1) =>
          match skipWs r1 with
          | [] => none
          | c2 :: r2 =>
            if c2 = 58 then
              match parseVal fuel (skipWs r2) with
              | none => none
              | some (v, r3) =>
                match skipWs r3 with
                | [] => none
                | c3 :: r4 =>
                  if c3 = 44 then
                    (parseObjItems fuel (skipWs r4)).map (fun p => ((k, v) :: p.1, p.2))
                  else if c3 = 125 then some ([(k, v)], r4)
                  else none
            else none
      else none

end

/-- Model of `json.loads`: scan one value, allow surrounding whitespace,
reject trailing data. -/
def json_loads (cps : List Nat) : Option Json :=
  match parseVal (cps.length + 1) (skipWs cps) with
  | some (j, rest) => if skipWs rest = [] then some j else none
  | none => none

/-! ### Well-formed documents and the size measure for the scanner fuel -/

/-- A valid number literal: exactly one complete token. -/
def numLitOk (lit : List Nat) : Bool := parseNumberTok lit == some (lit, [])

mutual

def wfJson : Json → Bool
  | .str s => scalarOk s
  | .num lit => numLitOk lit
  | .bool _ => true
  | .null => true
  | .arr xs => wfList xs
  | .obj kvs => wfFields kvs

def wfList : List Json → Bool
  | [] => true
  | x :: rest => wfJson x && wfList rest

def wfFields : List (List Nat × Json) → Bool
  | [] => true
  | (k, v) :: rest => scalarOk k && !(hasKey rest k) && wfJson v && wfFields rest

end

mutual

def jsize : Json → Nat
  | .str _ => 1
  | .num _ => 1
  | .bool _ => 1
  | .null => 1
  | .arr xs => 1 + jsizeList xs
  | .obj kvs => 1 + jsizeFields kvs

def jsizeList : List Json → Nat
  | [] => 0
  | x :: rest => 1 + jsize x + jsizeList rest

def jsizeFields : List (List Nat × Json) → Nat
  | [] => 0
  | (_, v) :: rest => 1 + jsize v + jsizeFields rest

end

/-! ### Scanner lemmas: reading back what the renderer wrote -/

theorem hexv_hexLower : ∀ a < 16, parseHex4.hexv (hexLower a) = some a := by decide

theorem escCp_ne_nil (c : Nat) : escCp c ≠ [] := by
  unfold escCp
  repeat' split
  all_goals simp

theorem escStr_length_ge (s : List Nat) : s.length ≤ (escStr s).length := by
  induction s with
  | nil => simp [escStr]
  | cons c cs ih =>
    have h : escStr (c :: cs) = escCp c ++ escStr cs := by simp [escStr]
    rw [h, List.length_append]
    have h1 : 1 ≤ (escCp c).length := by
      cases hc : escCp c
      · exact absurd hc (escCp_ne_nil c)
      · simp
    simp only [List.length_cons]
    omega

theorem parseStringBodyF_esc (s : List Nat) : ∀ fuel rest, s.length + 1 ≤ fuel →
    parseStringBodyF fuel (escStr s ++ 34 :: rest) = some (s, rest) := by
  induction s with
  | nil =>
    intro fuel rest hf
    cases fuel with
    | zero => omega
    | succ f =>
      show parseStringBodyF (f + 1) (34 :: rest) = some ([], rest)
      simp [parseStringBodyF]
  | cons c cs ih =>
    intro fuel rest hf
    simp only [List.length_cons] at hf
    cases fuel with
    | zero => omega
    | succ f =>
      have ihf := ih f rest (by omega)
      have hexp : escStr (c :: cs) ++ 34 :: rest = escCp c ++ (escStr cs ++ 34 :: rest) := by
        simp [escStr]
      rw [hexp]
      unfold escCp
      by_cases h34 : c = 34
      · subst h34
        simp [parseStringBodyF, ihf]
      · rw [if_neg h34]
        by_cases h92 : c = 92
        · subst h92
          simp [parseStringBodyF, ihf]
        · rw [if_neg h92]
          by_cases h8 : c = 8
          · subst h8
            simp [parseStringBodyF, ihf]
          · rw [if_neg h8]
            by_cases h9 : c = 9
            · subst h9
              simp [parseStringBodyF, ihf]
            · rw [if_neg h9]
              by_cases h10 : c = 10
              · subst h10
                simp [parseStringBodyF, ihf]
              · rw [if_neg h10]
                by_cases h12 : c = 12
                · subst h12
                  simp [parseStringBodyF, ihf]
                · rw [if_neg h12]
                  by_cases h13 : c = 13
                  · subst h13
                    simp [parseStringBodyF, ihf]
                  · rw [if_neg h13]
                    by_cases hctl : c < 32
                    · rw [if_pos hctl]
                      have hd1 : parseHex4.hexv 48 = some 0 := by decide
                      have hd2 : parseHex4.hexv (hexLower (c / 16)) = some (c / 16) :=
                        hexv_hexLower _ (by omega)
                      have hd3 : parseHex4.hexv (hexLower (c % 16)) = some (c % 16) :=
                        hexv_hexLower _ (Nat.mod_lt _ (by omega))
                      have hph : parseHex4 (48 :: 48 :: hexLower (c / 16) :: hexLower (c % 16) ::
                          (escStr cs ++ 34 :: rest)) = some (c, escStr cs ++ 34 :: rest) := by
                        simp only [parseHex4, hd1, hd2, hd3]
                        have hc16 : 0 * 4096 + 0 * 256 + (c / 16) * 16 + c % 16 = c := by omega
                        rw [hc16]
                      simp only [List.cons_append, List.nil_append, parseStringBodyF]
                      norm_num
                      rw [hph]
                      have hns : ¬ (55296 ≤ c ∧ c < 56320) := by omega
                      dsimp only
                      rw [if_neg hns, ihf]
                      rfl
                    · rw [if_neg hctl]
                      simp only [List.cons_append, List.nil_append, parseStringBodyF]
                      rw [if_neg h34, if_neg h92, if_neg hctl]
                      simp [ihf]

theorem parseStringBody_esc (s rest : List Nat) :
    parseStringBody (escStr s ++ 34 :: rest) = some (s, rest) := by
  apply parseStringBodyF_esc
  have h1 := escStr_length_ge s
  simp only [List.length_append, List.length_cons]
  omega

/-- The head of `l`, when present, is not a digit. -/
def headNotDigit (l : List Nat) : Prop := ∀ c t, l = c :: t → isDigitCp c = false

/-- A remainder that can follow a complete rendered value: empty, or a comma,
or a closing bracket or brace. -/
def sepHeadB : List Nat → Bool
  | [] => true
  | c :: _ => c = 44 || c = 93 || c = 125

theorem sepHeadB_headNotDigit (l : List Nat) (h : sepHeadB l = true) : headNotDigit l := by
  intro c t hl
  subst hl
  simp [sepHeadB] at h
  rcases h with (rfl | rfl) | rfl <;> rfl

theorem takeWhile_digits_append (ds r : List Nat) (hds : ∀ c ∈ ds, isDigitCp c = true)
    (hr : headNotDigit r) : (ds ++ r).takeWhile isDigitCp = ds := by
  induction ds with
  | nil =>
    cases r with
    | nil => rfl
    | cons c t =>
      have := hr c t rfl
      simp [List.takeWhile_cons, this]
  | cons d ds ih =>
    have hd : isDigitCp d = true := hds d (by simp)
    simp only [List.cons_append, List.takeWhile_cons, hd, if_pos]
    rw [ih (fun c hc => hds c (by simp [hc]))]

theorem dropWhile_digits_append (ds r : List Nat) (hds : ∀ c ∈ ds, isDigitCp c = true)
    (hr : headNotDigit r) : (ds ++ r).dropWhile isDigitCp = r := by
  induction ds with
  | nil =>
    cases r with
    | nil => rfl
    | cons c t =>
      have := hr c t rfl
      simp [List.dropWhile_cons, this]
  | cons d ds ih =>
    have hd : isDigitCp d = true := hds d (by simp)
    simp only [List.cons_append, List.dropWhile_cons, hd, if_pos]
    exact ih (fun c hc => hds c (by simp [hc]))

theorem scanDigits_append (ds r : List Nat) (hds : ∀ c ∈ ds, isDigitCp c = true)
    (hr : headNotDigit r) : scanDigits (ds ++ r) = (ds, r) := by
  simp [scanDigits, takeWhile_digits_append ds r hds hr, dropWhile_digits_append ds r hds hr]

theorem takeWhile_digits_mem (l : List Nat) : ∀ c ∈ l.takeWhile isDigitCp,
    isDigitCp c = true := by
  induction l with
  | nil => simp
  | cons d ds ih =>
    by_cases hd : isDigitCp d = true
    · simp only [List.takeWhile_cons, hd, if_pos]
      intro c hc
      rcases List.mem_cons.mp hc with rfl | hc
      · exact hd
      · exact ih c hc
    · simp only [List.takeWhile_cons, Bool.not_eq_true] at *
      simp [hd]

theorem dropWhile_digits_head (l : List Nat) : headNotDigit (l.dropWhile isDigitCp) := by
  induction l with
  | nil => intro c t h; simp at h
  | cons d ds ih =>
    by_cases hd : isDigitCp d = true
    · simpa [List.dropWhile_cons, hd] using ih
    · intro c t h
      rw [List.dropWhile_cons, if_neg (by simp_all)] at h
      injection h with h1 h2
      subst h1
      simpa using hd

theorem scanDigits_join (l : List Nat) :
    (scanDigits l).1 ++ (scanDigits l).2 = l := by
  simp [scanDigits, List.takeWhile_append_dropWhile]

theorem parseIntPart_spec (x ip r : List Nat) (h : parseIntPart x = some (ip, r)) :
    x = ip ++ r ∧ (ip = [48] ∨ ∃ d ds, ip = d :: ds ∧ 49 ≤ d ∧ d ≤ 57 ∧
      (∀ c ∈ ds, isDigitCp c = true) ∧ headNotDigit r) := by
  cases x with
  | nil => simp [parseIntPart] at h
  | cons c rest =>
    by_cases h48 : c = 48
    · subst h48
      simp [parseIntPart] at h
      obtain ⟨rfl, rfl⟩ := h
      simp
    · by_cases hd : 49 ≤ c ∧ c ≤ 57
      · simp only [parseIntPart, if_neg h48, if_pos hd, Option.some.injEq, Prod.mk.injEq] at h
        obtain ⟨rfl, rfl⟩ := h
        constructor
        · simp only [List.cons_append]
          rw [scanDigits_join rest]
        · right
          refine ⟨c, (scanDigits rest).1, rfl, hd.1, hd.2, ?_, ?_⟩
          · exact fun a ha => takeWhile_digits_mem rest a (by simpa [scanDigits] using ha)
          · have := dropWhile_digits_head rest
            simpa [scanDigits] using this
      · simp [parseIntPart, h48, hd] at h

theorem parseIntPart_append (ip r2 : List Nat)
    (hshape : ip = [48] ∨ ∃ d ds, ip = d :: ds ∧ 49 ≤ d ∧ d ≤ 57 ∧
      (∀ c ∈ ds, isDigitCp c = true))
    (hr2 : headNotDigit r2) : parseIntPart (ip ++ r2) = some (ip, r2) := by
  rcases hshape with rfl | ⟨d, ds, rfl, hd1, hd2, hds⟩
  · simp [parseIntPart]
  · have h48 : d ≠ 48 := by omega
    simp only [List.cons_append, parseIntPart, if_neg h48, if_pos (And.intro hd1 hd2)]
    rw [scanDigits_append ds r2 hds hr2]

theorem parseFracPart_spec (x f r : List Nat) (h : parseFracPart x = (f, r)) :
    x = f ++ r ∧ ((f = [] ∧ r = x) ∨ ∃ ds, f = 46 :: ds ∧ ds ≠ [] ∧
      (∀ c ∈ ds, isDigitCp c = true) ∧ headNotDigit r) := by
  cases x with
  | nil =>
    simp [parseFracPart] at h
    obtain ⟨rfl, rfl⟩ := h
    simp
  | cons c rest =>
    by_cases h46 : c = 46
    · subst h46
      by_cases hemp : (scanDigits rest).1.isEmpty
      · simp only [parseFracPart, if_pos hemp, Prod.mk.injEq] at h
        obtain ⟨rfl, rfl⟩ := h
        simp
      · simp only [parseFracPart, if_neg hemp, Prod.mk.injEq] at h
        obtain ⟨rfl, rfl⟩ := h
        constructor
        · simp only [List.cons_append]
          rw [scanDigits_join rest]
        · right
          refine ⟨(scanDigits rest).1, rfl, ?_, ?_, ?_⟩
          · intro hnil
            rw [hnil] at hemp
            simp at hemp
          · exact fun a ha => takeWhile_digits_mem rest a (by simpa [scanDigits] using ha)
          · have := dropWhile_digits_head rest
            simpa [scanDigits] using this
    · simp only [parseFracPart, if_neg h46, Prod.mk.injEq] at h
      obtain ⟨rfl, rfl⟩ := h
      simp

theorem parseFracPart_none (x : List Nat) (hx : ∀ c t, x = c :: t → c ≠ 46) :
    parseFracPart x = ([], x) := by
  cases x with
  | nil => rfl
  | cons c rest =>
    have := hx c rest rfl
    simp [parseFracPart, this]

theorem parseFracPart_append (ds r2 : List Nat) (hne : ds ≠ [])
    (hds : ∀ c ∈ ds, isDigitCp c = true) (hr2 : headNotDigit r2) :
    parseFracPart (46 :: ds ++ r2) = (46 :: ds, r2) := by
  have hstep : parseFracPart (46 :: (ds ++ r2)) =
      if (scanDigits (ds ++ r2)).1.isEmpty then ([], 46 :: (ds ++ r2))
      else (46 :: (scanDigits (ds ++ r2)).1, (scanDigits (ds ++ r2)).2) := by
    simp [parseFracPart]
  simp only [List.cons_append] at hstep ⊢
  rw [hstep, scanDigits_append ds r2 hds hr2]
  simp [hne]

theorem parseExpPart_spec (x e1 e2 : List Nat) (h : parseExpPart x = (e1, e2)) :
    x = e1 ++ e2 ∧ ((e1 = [] ∧ e2 = x) ∨ ∃ e sgl ds, e1 = e :: (sgl ++ ds) ∧
      (e = 101 ∨ e = 69) ∧ (sgl = [] ∨ sgl = [43] ∨ sgl = [45]) ∧ ds ≠ [] ∧
      (∀ c ∈ ds, isDigitCp c = true) ∧ headNotDigit e2) := by
  cases x with
  | nil =>
    simp [parseExpPart] at h
    obtain ⟨rfl, rfl⟩ := h
    simp
  | cons e rest =>
    by_cases he : e = 101 ∨ e = 69
    · cases rest with
      | nil =>
        simp only [parseExpPart, if_pos he] at h
        simp [scanDigits] at h
        obtain ⟨rfl, rfl⟩ := h
        simp
      | cons s r =>
        by_cases hs : s = 43 ∨ s = 45
        · by_cases hemp : (scanDigits r).1.isEmpty
          · simp only [parseExpPart, if_pos he, if_pos hs, if_pos hemp, Prod.mk.injEq] at h
            obtain ⟨rfl, rfl⟩ := h
            simp
          · simp only [parseExpPart, if_pos he, if_pos hs, if_neg hemp, Prod.mk.injEq] at h
            obtain ⟨rfl, rfl⟩ := h
            constructor
            · simp only [List.cons_append, List.singleton_append, List.append_assoc]
              rw [scanDigits_join r]
              simp
            · right
              refine ⟨e, [s], (scanDigits r).1, by simp, he, by
                  rcases hs with rfl | rfl
                  · simp
                  · simp, ?_, ?_, ?_⟩
              · intro hnil
                rw [hnil] at hemp
                simp at hemp
              · exact fun a ha => takeWhile_digits_mem r a (by simpa [scanDigits] using ha)
              · have := dropWhile_digits_head r
                simpa [scanDigits] using this
        · by_cases hemp : (scanDigits (s :: r)).1.isEmpty
          · simp only [parseExpPart, if_pos he, if_neg hs, if_pos hemp, Prod.mk.injEq] at h
            obtain ⟨rfl, rfl⟩ := h
            simp
          · simp only [parseExpPart, if_pos he, if_neg hs, if_neg hemp, Prod.mk.injEq] at h
            obtain ⟨rfl, rfl⟩ := h
            constructor
            · simp only [List.cons_append, List.nil_append]
              rw [scanDigits_join (s :: r)]
            · right
              refine ⟨e, [], (scanDigits (s :: r)).1, by simp, he, by simp, ?_, ?_, ?_⟩
              · intro hnil
                rw [hnil] at hemp
                simp at hemp
              · exact fun a ha => takeWhile_digits_mem (s :: r) a
                  (by simpa [scanDigits] using ha)
              · have := dropWhile_digits_head (s :: r)
                simpa [scanDigits] using this
    · simp only [parseExpPart, if_neg he, Prod.mk.injEq] at h
      obtain ⟨rfl, rfl⟩ := h
      simp

theorem parseExpPart_none (x : List Nat) (hx : ∀ c t, x = c :: t → c ≠ 101 ∧ c ≠ 69) :
    parseExpPart x = ([], x) := by
  cases x with
  | nil => rfl
  | cons c rest =>
    have := hx c rest rfl
    have hne : ¬ (c = 101 ∨ c = 69) := by omega
    simp [parseExpPart, hne]

theorem parseExpPart_append (e : Nat) (sgl ds r2 : List Nat)
    (he : e = 101 ∨ e = 69) (hsgl : sgl = [] ∨ sgl = [43] ∨ sgl = [45]) (hne : ds ≠ [])
    (hds : ∀ c ∈ ds, isDigitCp c = true) (hr2 : headNotDigit r2) :
    parseExpPart (e :: (sgl ++ ds) ++ r2) = (e :: (sgl ++ ds), r2) := by
  rcases hsgl with rfl | rfl | rfl
  · cases ds with
    | nil => exact absurd rfl hne
    | cons d dt =>
      have hd : isDigitCp d = true := hds d (by simp)
      have hdno : ¬ (d = 43 ∨ d = 45) := by
        simp [isDigitCp] at hd
        omega
      have hstep : parseExpPart (e :: (d :: (dt ++ r2))) =
          if e = 101 ∨ e = 69 then
            (if (scanDigits (d :: (dt ++ r2))).1.isEmpty then ([], e :: (d :: (dt ++ r2)))
             else (e :: [] ++ (scanDigits (d :: (dt ++ r2))).1, (scanDigits (d :: (dt ++ r2))).2))
          else ([], e :: (d :: (dt ++ r2))) := by
        simp only [parseExpPart, if_neg hdno]
      simp only [List.nil_append, List.cons_append] at hstep ⊢
      rw [hstep, if_pos he]
      have hsc := scanDigits_append (d :: dt) r2 hds hr2
      simp only [List.cons_append] at hsc
      rw [hsc]
      simp
  · have hstep : parseExpPart (e :: (43 :: (ds ++ r2))) =
        if e = 101 ∨ e = 69 then
          (if (scanDigits (ds ++ r2)).1.isEmpty then ([], e :: (43 :: (ds ++ r2)))
           else (e :: [43] ++ (scanDigits (ds ++ r2)).1, (scanDigits (ds ++ r2)).2))
        else ([], e :: (43 :: (ds ++ r2))) := by
      simp [parseExpPart]
    simp only [List.singleton_append, List.cons_append, List.nil_append] at hstep ⊢
    rw [hstep, if_pos he, scanDigits_append ds r2 hds hr2]
    simp [hne]
  · have hstep : parseExpPart (e :: (45 :: (ds ++ r2))) =
        if e = 101 ∨ e = 69 then
          (if (scanDigits (ds ++ r2)).1.isEmpty then ([], e :: (45 :: (ds ++ r2)))
           else (e :: [45] ++ (scanDigits (ds ++ r2)).1, (scanDigits (ds ++ r2)).2))
        else ([], e :: (45 :: (ds ++ r2))) := by
      simp [parseExpPart]
    simp only [List.singleton_append, List.cons_append, List.nil_append] at hstep ⊢
    rw [hstep, if_pos he, scanDigits_append ds r2 hds hr2]
    simp [hne]

theorem numCore_complete_append (u rest : List Nat) (h : numCore u = some (u, []))
    (hrd : headNotDigit rest)
    (hr46 : ∀ c t, rest = c :: t → c ≠ 46 ∧ c ≠ 101 ∧ c ≠ 69) :
    numCore (u ++ rest) = some (u, rest) := by
  rcases hpi : parseIntPart u with _ | ⟨ip, r1⟩
  · rw [numCore, hpi] at h
    simp at h
  · obtain ⟨hu1, hshape⟩ := parseIntPart_spec u ip r1 hpi
    rcases hfp : parseFracPart r1 with ⟨f1, f2⟩
    obtain ⟨hr1, hfshape⟩ := parseFracPart_spec r1 f1 f2 hfp
    rcases hep : parseExpPart f2 with ⟨e1, e2⟩
    obtain ⟨hf2, heshape⟩ := parseExpPart_spec f2 e1 e2 hep
    rw [numCore, hpi] at h
    simp only [hfp, hep, Option.some.injEq, Prod.mk.injEq] at h
    obtain ⟨hueq, he2⟩ := h
    subst he2
    -- the head of what follows each component is never a digit, dot or e
    have hnd_e1rest : headNotDigit (e1 ++ rest) := by
      intro c t hct
      rcases heshape with ⟨rfl, _⟩ | ⟨e, sgl, ds, rfl, he, _, _, _, _⟩
      · exact hrd c t hct
      · simp only [List.cons_append] at hct
        injection hct with h1 _
        subst h1
        simp [isDigitCp]
        omega
    have hnd_f1e1rest : headNotDigit (f1 ++ e1 ++ rest) := by
      intro c t hct
      rcases hfshape with ⟨rfl, _⟩ | ⟨ds, rfl, _, _, _⟩
      · exact hnd_e1rest c t (by simpa using hct)
      · simp only [List.cons_append] at hct
        injection hct with h1 _
        subst h1
        rfl
    -- recompute each component on the extended input
    have hpi2 : parseIntPart (ip ++ (f1 ++ e1 ++ rest)) = some (ip, f1 ++ e1 ++ rest) := by
      apply parseIntPart_append
      · rcases hshape with h48 | ⟨d, ds, hip, h1, h2, h3, _⟩
        · exact Or.inl h48
        · exact Or.inr ⟨d, ds, hip, h1, h2, h3⟩
      · exact hnd_f1e1rest
    have hfp2 : parseFracPart (f1 ++ (e1 ++ rest)) = (f1, e1 ++ rest) := by
      rcases hfshape with ⟨rfl, _⟩ | ⟨ds, rfl, hne, hds, _⟩
      · simp only [List.nil_append]
        apply parseFracPart_none
        intro c t hct
        rcases heshape with ⟨rfl, _⟩ | ⟨e, sgl, ds, rfl, he, _, _, _, _⟩
        · simp only [List.nil_append] at hct
          exact (hr46 c t hct).1
        · simp only [List.cons_append] at hct
          injection hct with h1 _
          omega
      · have := parseFracPart_append ds (e1 ++ rest) hne hds hnd_e1rest
        simpa using this
    have hep2 : parseExpPart (e1 ++ rest) = (e1, rest) := by
      rcases heshape with ⟨rfl, hf2e⟩ | ⟨e, sgl, ds, rfl, he, hsgl, hne, hds, _⟩
      · simp only [List.nil_append]
        apply parseExpPart_none
        intro c t hct
        exact ⟨(hr46 c t hct).2.1, (hr46 c t hct).2.2⟩
      · have := parseExpPart_append e sgl ds rest he hsgl hne hds hrd
        simpa using this
    -- assemble
    have hu2 : u ++ rest = ip ++ (f1 ++ e1 ++ rest) := by
      rw [← hueq]
      simp [List.append_assoc]
    rw [hu2, numCore, hpi2]
    simp only []
    have hfp2b : parseFracPart (f1 ++ e1 ++ rest) = (f1, e1 ++ rest) := by
      rw [List.append_assoc]
      exact hfp2
    rw [hfp2b]
    simp only [hep2]
    rw [← hueq]

theorem parseNumberTok_complete_append (lit rest : List Nat)
    (h : parseNumberTok lit = some (lit, []))
    (hrest : sepHeadB rest = true) : parseNumberTok (lit ++ rest) = some (lit, rest) := by
  have hrd := sepHeadB_headNotDigit rest hrest
  have hr46 : ∀ c t, rest = c :: t → c ≠ 46 ∧ c ≠ 101 ∧ c ≠ 69 := by
    intro c t hct
    subst hct
    simp [sepHeadB] at hrest
    rcases hrest with (rfl | rfl) | rfl <;> norm_num
  cases lit with
  | nil => simp [parseNumberTok] at h
  | cons c l1 =>
    by_cases hc45 : c = 45
    · subst hc45
      have h2 : (numCore l1).map (fun p => ((45 : Nat) :: p.1, p.2)) = some (45 :: l1, []) := by
        simpa [parseNumberTok] using h
      rcases hcore : numCore l1 with _ | ⟨u, r⟩
      · rw [hcore] at h2
        simp at h2
      · rw [hcore] at h2
        simp only [Option.map_some', Option.some.injEq, Prod.mk.injEq] at h2
        obtain ⟨hu, hr⟩ := h2
        have hu2 : u = l1 := by injection hu
        subst hr
        rw [hu2] at hcore
        have h3 := numCore_complete_append l1 rest hcore hrd hr46
        rw [List.cons_append]
        simp [parseNumberTok, h3]
    · have h2 : numCore (c :: l1) = some (c :: l1, []) := by
        simpa [parseNumberTok, hc45] using h
      have h3 := numCore_complete_append (c :: l1) rest h2 hrd hr46
      simp only [List.cons_append] at h3
      rw [List.cons_append]
      simp [parseNumberTok, hc45, h3]

theorem numLit_head (lit : List Nat) (h : numLitOk lit = true) :
    ∃ c t, lit = c :: t ∧ (c = 45 ∨ 48 ≤ c ∧ c ≤ 57) := by
  have h2 : parseNumberTok lit = some (lit, []) := by
    simpa [numLitOk] using h
  cases lit with
  | nil => simp [parseNumberTok] at h2
  | cons c t =>
    refine ⟨c, t, rfl, ?_⟩
    by_cases hc : c = 45
    · exact Or.inl hc
    · right
      rw [parseNumberTok, if_neg hc] at h2
      by_cases h48 : c = 48
      · omega
      · by_cases hd : 49 ≤ c ∧ c ≤ 57
        · omega
        · rw [numCore] at h2
          rw [show parseIntPart (c :: t) = none from by
            simp [parseIntPart, h48, hd]] at h2
          simp at h2

theorem render_ne_nil (j : Json) (h : wfJson j = true) : render j ≠ [] := by
  cases j with
  | str s => simp [render]
  | num lit =>
    obtain ⟨c, t, rfl, _⟩ := numLit_head lit (by simpa [wfJson] using h)
    simp [render]
  | bool b => cases b <;> simp [render]
  | null => simp [render]
  | arr xs => simp [render]
  | obj kvs => simp [render]

theorem render_head_class (j : Json) (h : wfJson j = true) (c : Nat) (t : List Nat)
    (hr : render j = c :: t) :
    c = 34 ∨ c = 123 ∨ c = 91 ∨ c = 116 ∨ c = 102 ∨ c = 110 ∨ c = 45 ∨
      (48 ≤ c ∧ c ≤ 57) := by
  cases j with
  | str s =>
    simp only [render] at hr
    injection hr with h1 _
    omega
  | num lit =>
    obtain ⟨d, u, rfl, hd⟩ := numLit_head lit (by simpa [wfJson] using h)
    simp only [render] at hr
    injection hr with h1 _
    omega
  | bool b =>
    cases b <;> simp only [render] at hr <;> injection hr with h1 _ <;> omega
  | null =>
    simp only [render] at hr
    injection hr with h1 _
    omega
  | arr xs =>
    simp only [render] at hr
    injection hr with h1 _
    omega
  | obj kvs =>
    simp only [render] at hr
    injection hr with h1 _
    omega

theorem renderElems_decomp (y : Json) (ys : List Json) :
    ∃ w, renderElems (y :: ys) = render y ++ w := by
  cases ys with
  | nil => exact ⟨[], by simp [renderElems]⟩
  | cons z zs => exact ⟨44 :: 32 :: renderElems (z :: zs), by simp [renderElems]⟩

theorem skipWs_cons (c : Nat) (l : List Nat) (h : isWsCp c = false) :
    skipWs (c :: l) = c :: l := by
  simp [skipWs, List.dropWhile_cons, h]

theorem skipWs_32 (l : List Nat) : skipWs (32 :: l) = skipWs l := by
  simp [skipWs, List.dropWhile_cons, isWsCp]

theorem wfList_cons (x : Json) (t : List Json) (h : wfList (x :: t) = true) :
    wfJson x = true ∧ wfList t = true := by
  simpa [wfList, Bool.and_eq_true] using h

theorem wfFields_cons (k : List Nat) (v : Json) (t : List (List Nat × Json))
    (h : wfFields ((k, v) :: t) = true) :
    scalarOk k = true ∧ wfJson v = true ∧ wfFields t = true := by
  simp only [wfFields, Bool.and_eq_true] at h
  exact ⟨h.1.1.1, h.1.2, h.2⟩

theorem jsize_pos (j : Json) : 1 ≤ jsize j := by
  cases j <;> simp [jsize]

theorem jsizeList_cons (x : Json) (t : List Json) :
    jsizeList (x :: t) = 1 + jsize x + jsizeList t := by
  simp [jsizeList]

theorem jsizeFields_cons (k : List Nat) (v : Json) (t : List (List Nat × Json)) :
    jsizeFields ((k, v) :: t) = 1 + jsize v + jsizeFields t := by
  simp [jsizeFields]

theorem head_class_facts (c : Nat)
    (h : c = 34 ∨ c = 123 ∨ c = 91 ∨ c = 116 ∨ c = 102 ∨ c = 110 ∨ c = 45 ∨
      (48 ≤ c ∧ c ≤ 57)) :
    c ≠ 93 ∧ c ≠ 125 ∧ isWsCp c = false := by
  refine ⟨by omega, by omega, ?_⟩
  simp [isWsCp]
  omega

theorem skipWs_render (v : Json) (hw : wfJson v = true) (X : List Nat) :
    skipWs (render v ++ X) = render v ++ X := by
  rcases hrv : render v with _ | ⟨d, rd⟩
  · exact absurd hrv (render_ne_nil v hw)
  · have hd := render_head_class v hw d rd hrv
    have hws := (head_class_facts d hd).2.2
    rw [List.cons_append]
    exact skipWs_cons d _ hws

theorem skipWs_elems (x : Json) (t : List Json) (X : List Nat) (hw : wfJson x = true) :
    skipWs (renderElems (x :: t) ++ X) = renderElems (x :: t) ++ X := by
  obtain ⟨w, hwdec⟩ := renderElems_decomp x t
  rw [hwdec, List.append_assoc]
  exact skipWs_render x hw (w ++ X)

theorem renderFields_decomp (k : List Nat) (v : Json) (fs : List (List Nat × Json)) :
    ∃ w, renderFields ((k, v) :: fs) = 34 :: (escStr k ++ 34 :: 58 :: 32 :: w) ∧
      (fs = [] → w = render v) ∧
      (∀ g gs, fs = g :: gs → w = render v ++ 44 :: 32 :: renderFields (g :: gs)) := by
  cases fs with
  | nil =>
    refine ⟨render v, ?_, fun _ => rfl, by simp⟩
    simp [renderFields]
  | cons g gs =>
    refine ⟨render v ++ 44 :: 32 :: renderFields (g :: gs), ?_, by simp, ?_⟩
    · simp [renderFields]
    · intro g2 gs2 hgg
      injection hgg with h1 h2
      subst h1
      subst h2
      rfl

theorem parse_render_all : ∀ fuel : Nat,
    (∀ j rest, wfJson j = true → jsize j ≤ fuel → sepHeadB rest = true →
      parseVal fuel (render j ++ rest) = some (j, rest)) ∧
    (∀ xs rest, xs ≠ [] → wfList xs = true → jsizeList xs ≤ fuel →
      parseArrItems fuel (renderElems xs ++ 93 :: rest) = some (xs, rest)) ∧
    (∀ kvs rest, kvs ≠ [] → wfFields kvs = true → jsizeFields kvs ≤ fuel →
      parseObjItems fuel (renderFields kvs ++ 125 :: rest) = some (kvs, rest)) := by
  intro fuel
  induction fuel with
  | zero =>
    refine ⟨?_, ?_, ?_⟩
    · intro j rest _ hsz _
      have := jsize_pos j
      omega
    · intro xs rest hne _ hsz
      cases xs with
      | nil => exact absurd rfl hne
      | cons x t => rw [jsizeList_cons] at hsz; omega
    · intro kvs rest hne _ hsz
      cases kvs with
      | nil => exact absurd rfl hne
      | cons kv t =>
        obtain ⟨k, v⟩ := kv
        rw [jsizeFields_cons] at hsz
        omega
  | succ f ih =>
    obtain ⟨ihP, ihQ, ihR⟩ := ih
    refine ⟨?_, ?_, ?_⟩
    · intro j rest hwf hsz hsep
      cases j with
      | str s =>
        have hin : render (Json.str s) ++ rest = 34 :: (escStr s ++ 34 :: rest) := by
          simp [render]
        rw [hin]
        simp only [parseVal, if_pos rfl]
        rw [parseStringBody_esc]
        rfl
      | num lit =>
        have hnl : numLitOk lit = true := by simpa [wfJson] using hwf
        obtain ⟨c, t, rfl, hclass⟩ := numLit_head lit hnl
        have htok : parseNumberTok (c :: t) = some (c :: t, []) := by
          simpa [numLitOk] using hnl
        have happ := parseNumberTok_complete_append (c :: t) rest htok hsep
        have hc34 : c ≠ 34 := by omega
        have hc123 : c ≠ 123 := by omega
        have hc91 : c ≠ 91 := by omega
        have hc116 : c ≠ 116 := by omega
        have hc102 : c ≠ 102 := by omega
        have hc110 : c ≠ 110 := by omega
        have hin : render (Json.num (c :: t)) ++ rest = c :: (t ++ rest) := by
          simp [render]
        rw [hin]
        simp only [parseVal, if_neg hc34, if_neg hc123, if_neg hc91, if_neg hc116,
          if_neg hc102, if_neg hc110]
        rw [show c :: (t ++ rest) = (c :: t) ++ rest from rfl, happ]
      | bool b =>
        cases b with
        | true =>
          have hin : render (Json.bool true) ++ rest = 116 :: 114 :: 117 :: 101 :: rest := by
            simp [render]
          rw [hin]
          simp [parseVal]
        | false =>
          have hin : render (Json.bool false) ++ rest =
              102 :: 97 :: 108 :: 115 :: 101 :: rest := by
            simp [render]
          rw [hin]
          simp [parseVal]
      | null =>
        have hin : render Json.null ++ rest = 110 :: 117 :: 108 :: 108 :: rest := by
          simp [render]
        rw [hin]
        simp [parseVal]
      | arr xs =>
        have hwl : wfList xs = true := by simpa [wfJson] using hwf
        have hszl : jsizeList xs ≤ f := by
          simp only [jsize] at hsz
          omega
        cases xs with
        | nil =>
          have hin : render (Json.arr []) ++ rest = 91 :: 93 :: rest := by
            simp [render, renderElems]
          rw [hin]
          have h93 : isWsCp 93 = false := rfl
          simp [parseVal, skipWs_cons 93 rest h93]
        | cons x t =>
          obtain ⟨hwx, hwt⟩ := wfList_cons x t hwl
          obtain ⟨w, hwdec⟩ := renderElems_decomp x t
          rcases hrx : render x with _ | ⟨d, rd⟩
          · exact absurd hrx (render_ne_nil x hwx)
          · have hdclass := render_head_class x hwx d rd hrx
            obtain ⟨hd93, hd125, hdws⟩ := head_class_facts d hdclass
            have hin : render (Json.arr (x :: t)) ++ rest =
                91 :: (renderElems (x :: t) ++ 93 :: rest) := by
              simp [render]
            have hcons : renderElems (x :: t) ++ 93 :: rest =
                d :: (rd ++ w ++ 93 :: rest) := by
              rw [hwdec, hrx]
              simp [List.append_assoc]
            rw [hin]
            simp only [parseVal]
            norm_num
            rw [hcons, skipWs_cons d _ hdws]
            dsimp only
            rw [if_neg hd93, ← hcons, ihQ (x :: t) rest (by simp) hwl hszl]
            rfl
      | obj kvs =>
        have hwl : wfFields kvs = true := by simpa [wfJson] using hwf
        have hszl : jsizeFields kvs ≤ f := by
          simp only [jsize] at hsz
          omega
        cases kvs with
        | nil =>
          have hin : render (Json.obj []) ++ rest = 123 :: 125 :: rest := by
            simp [render, renderFields]
          rw [hin]
          have h125 : isWsCp 125 = false := rfl
          simp [parseVal, skipWs_cons 125 rest h125]
        | cons kv fs =>
          obtain ⟨k, v⟩ := kv
          obtain ⟨w, hwdec, _, _⟩ := renderFields_decomp k v fs
          have hin : render (Json.obj ((k, v) :: fs)) ++ rest =
              123 :: (renderFields ((k, v) :: fs) ++ 125 :: rest) := by
            simp [render]
          have hcons : renderFields ((k, v) :: fs) ++ 125 :: rest =
              34 :: (escStr k ++ 34 :: 58 :: 32 :: w ++ 125 :: rest) := by
            rw [hwdec]
            simp [List.append_assoc]
          have h34ws : isWsCp 34 = false := rfl
          rw [hin]
          simp only [parseVal]
          norm_num
          rw [hcons, skipWs_cons 34 _ h34ws]
          dsimp only
          rw [if_neg (by norm_num : (34 : Nat) ≠ 125), ← hcons,
            ihR ((k, v) :: fs) rest (by simp) hwl hszl]
          rfl
    · intro xs rest hne hwl hszl
      cases xs with
      | nil => exact absurd rfl hne
      | cons x t =>
        obtain ⟨hwx, hwt⟩ := wfList_cons x t hwl
        rw [jsizeList_cons] at hszl
        cases t with
        | nil =>
          have hin : renderElems [x] ++ 93 :: rest = render x ++ 93 :: rest := by
            simp [renderElems]
          rw [hin]
          simp only [parseArrItems]
          rw [ihP x (93 :: rest) hwx (by simp only [jsizeList] at hszl; omega) (by rfl)]
          have h93 : isWsCp 93 = false := rfl
          dsimp only
          rw [skipWs_cons 93 rest h93]
          dsimp only
          norm_num
        | cons y t2 =>
          obtain ⟨hwy, hwt2⟩ := wfList_cons y t2 hwt
          have hin : renderElems (x :: y :: t2) ++ 93 :: rest =
              render x ++ (44 :: 32 :: (renderElems (y :: t2) ++ 93 :: rest)) := by
            simp [renderElems, List.append_assoc]
          rw [hin]
          simp only [parseArrItems]
          rw [ihP x (44 :: 32 :: (renderElems (y :: t2) ++ 93 :: rest)) hwx
            (by omega) (by rfl)]
          have h44 : isWsCp 44 = false := rfl
          dsimp only
          rw [skipWs_cons 44 _ h44]
          dsimp only
          norm_num
          rw [skipWs_32, skipWs_elems y t2 (93 :: rest) hwy,
            ihQ (y :: t2) rest (by simp) hwt (by omega)]
    · intro kvs rest hne hwl hszl
      cases kvs with
      | nil => exact absurd rfl hne
      | cons kv fs =>
        obtain ⟨k, v⟩ := kv
        obtain ⟨hsk, hwv, hwfs⟩ := wfFields_cons k v fs hwl
        rw [jsizeFields_cons] at hszl
        cases fs with
        | nil =>
          have hin : renderFields [(k, v)] ++ 125 :: rest =
              34 :: (escStr k ++ 34 :: (58 :: 32 :: (render v ++ 125 :: rest))) := by
            simp [renderFields, List.append_assoc]
          rw [hin]
          simp only [parseObjItems]
          norm_num
          rw [parseStringBody_esc]
          dsimp only
          have h58 : isWsCp 58 = false := rfl
          rw [skipWs_cons 58 _ h58]
          dsimp only
          norm_num
          rw [skipWs_32, skipWs_render v hwv (125 :: rest),
            ihP v (125 :: rest) hwv (by simp only [jsizeFields] at hszl; omega) (by rfl)]
          dsimp only
          have h125 : isWsCp 125 = false := rfl
          rw [skipWs_cons 125 rest h125]
          dsimp only
          norm_num
        | cons g gs =>
          have hin : renderFields ((k, v) :: g :: gs) ++ 125 :: rest =
              34 :: (escStr k ++ 34 :: (58 :: 32 :: (render v ++
                (44 :: 32 :: (renderFields (g :: gs) ++ 125 :: rest))))) := by
            simp [renderFields, List.append_assoc]
          rw [hin]
          simp only [parseObjItems]
          norm_num
          rw [parseStringBody_esc]
          dsimp only
          have h58 : isWsCp 58 = false := rfl
          rw [skipWs_cons 58 _ h58]
          dsimp only
          norm_num
          rw [skipWs_32, skipWs_render v hwv _,
            ihP v (44 :: 32 :: (renderFields (g :: gs) ++ 125 :: rest)) hwv
              (by omega) (by rfl)]
          dsimp only
          have h44 : isWsCp 44 = false := rfl
          rw [skipWs_cons 44 _ h44]
          dsimp only
          norm_num
          obtain ⟨g1, g2⟩ := g
          obtain ⟨w2, hwdec2, _, _⟩ := renderFields_decomp g1 g2 gs
          have hcons2 : renderFields ((g1, g2) :: gs) ++ 125 :: rest =
              34 :: (escStr g1 ++ 34 :: 58 :: 32 :: w2 ++ 125 :: rest) := by
            rw [hwdec2]
            simp [List.append_assoc]
          have h34ws : isWsCp 34 = false := rfl
          rw [skipWs_32, hcons2, skipWs_cons 34 _ h34ws, ← hcons2,
            ihR ((g1, g2) :: gs) rest (by simp) hwfs (by omega)]

mutual

theorem jsize_le_render : ∀ j : Json, wfJson j = true → jsize j ≤ (render j).length + 1
  | .str s, _ => by simp [jsize]
  | .num lit, _ => by simp [jsize]
  | .bool b, _ => by cases b <;> simp [jsize]
  | .null, _ => by simp [jsize]
  | .arr xs, h => by
    have hl := jsizeList_le_renderElems xs (by simpa [wfJson] using h)
    simp only [jsize, render, List.length_cons, List.length_append, List.length_singleton]
    omega
  | .obj kvs, h => by
    have hl := jsizeFields_le_renderFields kvs (by simpa [wfJson] using h)
    simp only [jsize, render, List.length_cons, List.length_append, List.length_singleton]
    omega

theorem jsizeList_le_renderElems : ∀ xs : List Json, wfList xs = true →
    jsizeList xs ≤ (renderElems xs).length + 2
  | [], _ => by simp [jsizeList]
  | [x], h => by
    have hx := jsize_le_render x (wfList_cons x [] h).1
    simp only [jsizeList, renderElems]
    omega
  | x :: y :: t, h => by
    have hx := jsize_le_render x (wfList_cons x (y :: t) h).1
    have ht := jsizeList_le_renderElems (y :: t) (wfList_cons x (y :: t) h).2
    have hcs := jsizeList_cons y t
    simp only [jsizeList, renderElems, List.length_append, List.length_cons] at *
    omega

theorem jsizeFields_le_renderFields : ∀ kvs : List (List Nat × Json), wfFields kvs = true →
    jsizeFields kvs ≤ (renderFields kvs).length + 2
  | [], _ => by simp [jsizeFields]
  | [(k, v)], h => by
    have hv := jsize_le_render v (wfFields_cons k v [] h).2.1
    simp only [jsizeFields, renderFields, List.length_append, List.length_cons]
    omega
  | (k, v) :: g :: gs, h => by
    have hv := jsize_le_render v (wfFields_cons k v (g :: gs) h).2.1
    have ht := jsizeFields_le_renderFields (g :: gs) (wfFields_cons k v (g :: gs) h).2.2
    have hcs := jsizeFields_cons g.1 g.2 gs
    simp only [jsizeFields, renderFields, List.length_append, List.length_cons] at *
    omega

end

/-- The JSON round trip: `json.loads` reads back exactly what `json.dumps`
wrote, for every well-formed document. -/
theorem json_loads_render (j : Json) (h : wfJson j = true) :
    json_loads (render j) = some j := by
  unfold json_loads
  have hski : skipWs (render j) = render j := by
    have := skipWs_render j h []
    simpa using this
  rw [hski]
  have hsz : jsize j ≤ (render j).length + 1 := jsize_le_render j h
  have hmain := (parse_render_all ((render j).length + 1)).1 j [] h hsz (by rfl)
  rw [List.append_nil] at hmain
  rw [hmain]
  rfl

/-! ## The stream codec.

Modelled from the spec: the Zstandard library called in encoder.py lines
277 to 286 and decoder.py lines 311 to 322 is an external dependency whose
internals are not part of this repository. Spec section 4.2 requires a
compressor and decompressor over byte sequences such that decompression
losslessly inverts compression for anything the codec produced and fails
cleanly on truncated or non-codec input. The model frames a run-length
compressed payload behind the Zstandard magic bytes and a self-delimiting
length header, and the decoder verifies the frame completely, re-encoding
the decoded payload, so that it accepts exactly the outputs of the
compressor. -/

/-- Length of the run of `b` at the head of the list, capped at 254 so the
run count fits a byte. -/
def countRun (b : Nat) : List Nat → Nat
  | [] => 0
  | a :: t =>
    if a = b then
      let r := countRun b t
      if 254 ≤ r then 254 else r + 1
    else 0

/-- Fuelled worker for run-length encoding. -/
def rleEncodeF : Nat → List Nat → List Nat
  | 0, _ => []
  | _ + 1, [] => []
  | fuel + 1, b :: rest =>
    let k := countRun b rest
    (k + 1) :: b :: rleEncodeF fuel (rest.drop k)

/-- Run-length encoding: pairs of run count (1 to 255) and byte. -/
def rleEncode (l : List Nat) : List Nat := rleEncodeF l.length l

/-- Run-length decoding; a zero count or an odd tail is invalid. -/
def rleDecode : List Nat → Option (List Nat)
  | [] => some []
  | [_] => none
  | c :: b :: rest =>
    if c = 0 then none
    else (rleDecode rest).map (fun l => List.replicate c b ++ l)

theorem countRun_le (b : Nat) (l : List Nat) : countRun b l ≤ l.length := by
  induction l with
  | nil => simp [countRun]
  | cons a t ih =>
    by_cases hab : a = b
    · simp only [countRun, if_pos hab, List.length_cons]
      split
      · omega
      · omega
    · simp [countRun, hab]

theorem countRun_take (b : Nat) (l : List Nat) :
    l.take (countRun b l) = List.replicate (countRun b l) b := by
  induction l with
  | nil => simp [countRun]
  | cons a t ih =>
    by_cases hab : a = b
    · subst hab
      simp only [countRun, if_pos rfl]
      by_cases h254 : 254 ≤ countRun a t
      · rw [if_pos h254]
        have htk : t.take 253 = List.replicate 253 a := by
          have h1 : t.take 253 = (t.take (countRun a t)).take 253 := by
            rw [List.take_take]
            congr 1
            omega
          rw [h1, ih, List.take_replicate]
          congr 1
          omega
        simp only [if_true]
        show List.take (253 + 1) (a :: t) = List.replicate (253 + 1) a
        rw [List.take_succ_cons, List.replicate_succ, htk]
      · rw [if_neg h254]
        simp only [if_true]
        rw [List.take_succ_cons, ih]
        rfl
    · simp [countRun, hab]

theorem rleDecodeF_encode (fuel : Nat) : ∀ l : List Nat, l.length ≤ fuel →
    rleDecode (rleEncodeF fuel l) = some l := by
  induction fuel with
  | zero =>
    intro l hl
    have : l = [] := List.length_eq_zero.mp (by omega)
    subst this
    rfl
  | succ f ih =>
    intro l hl
    cases l with
    | nil => rfl
    | cons b rest =>
      simp only [rleEncodeF]
      have hk := countRun_le b rest
      have ihr := ih (rest.drop (countRun b rest)) (by
        simp only [List.length_cons] at hl
        simp [List.length_drop]
        omega)
      simp only [rleDecode, if_neg (by omega : ¬ countRun b rest + 1 = 0), ihr,
        Option.map_some']
      congr 1
      rw [List.replicate_succ, List.cons_append]
      congr 1
      rw [← countRun_take b rest, List.take_append_drop]

/-- Run-length decoding inverts run-length encoding. -/
theorem rleDecode_encode (l : List Nat) : rleDecode (rleEncode l) = some l :=
  rleDecodeF_encode l.length l (le_refl _)

/-- Fuelled little-endian base-255 digits of a length. -/
def toLen255F : Nat → Nat → List Nat
  | 0, _ => []
  | _ + 1, 0 => []
  | fuel + 1, n => n % 255 :: toLen255F fuel (n / 255)

/-- Self-delimiting frame length: base-255 digits closed by a 255 byte. -/
def encLen (n : Nat) : List Nat := toLen255F n n ++ [255]

/-- Read a self-delimiting frame length. -/
def readLen255 : List Nat → Option (Nat × List Nat)
  | [] => none
  | d :: r =>
    if d = 255 then some (0, r)
    else (readLen255 r).map (fun p => (d + 255 * p.1, p.2))

theorem readLen255_toLen (fuel : Nat) : ∀ n r, n ≤ fuel →
    readLen255 (toLen255F fuel n ++ 255 :: r) = some (n, r) := by
  induction fuel with
  | zero =>
    intro n r hn
    have : n = 0 := by omega
    subst this
    simp [toLen255F, readLen255]
  | succ f ih =>
    intro n r hn
    cases n with
    | zero => simp [toLen255F, readLen255]
    | succ m =>
      have hd : ¬ (m + 1) % 255 = 255 := by
        have := Nat.mod_lt (m + 1) (show 0 < 255 from by omega)
        omega
      have hih := ih ((m + 1) / 255) r (by
        have := Nat.div_lt_self (show 0 < m + 1 from by omega) (show 1 < 255 from by omega)
        omega)
      have hval : (m + 1) % 255 + 255 * ((m + 1) / 255) = m + 1 := by
        have := Nat.mod_add_div (m + 1) 255
        omega
      simp only [toLen255F, List.cons_append, readLen255, if_neg hd, List.append_eq, hih,
        Option.map_some', hval]

theorem readLen255_enc (n : Nat) (r : List Nat) :
    readLen255 (encLen n ++ r) = some (n, r) := by
  have := readLen255_toLen n n r (le_refl n)
  simpa [encLen, List.append_assoc] using this

/-- The frame length header is a prefix code. -/
theorem encLen_prefix_code (a b : Nat) (u v : List Nat)
    (h : encLen a ++ u = encLen b ++ v) : a = b ∧ u = v := by
  have h1 : readLen255 (encLen a ++ u) = some (a, u) := readLen255_enc a u
  have h2 : readLen255 (encLen b ++ v) = some (b, v) := readLen255_enc b v
  rw [h, h2] at h1
  injection h1 with h3
  exact ⟨congrArg Prod.fst h3.symm, congrArg Prod.snd h3.symm⟩

/-- Modelled from the spec: the compressor of the stream codec (spec section
4.2). A Zstandard-style frame: magic bytes, self-delimiting payload length,
then the run-length compressed payload. -/
def zstdCompress (x : List Nat) : List Nat :=
  40 :: 181 :: 47 :: 253 :: (encLen (rleEncode x).length ++ rleEncode x)

/-- Modelled from the spec: the decompressor of the stream codec (spec
section 4.2). The frame is validated completely, and the decoded payload is
re-encoded and compared against the input, so decompression succeeds exactly
on the outputs of `zstdCompress` and fails cleanly on anything else,
truncated input included. -/
def zstdDecompress (y : List Nat) : Except Unit (List Nat) :=
  match y with
  | 40 :: 181 :: 47 :: 253 :: r =>
    match readLen255 r with
    | none => .error ()
    | some (n, payload) =>
      if payload.length = n then
        match rleDecode payload with
        | some x => if zstdCompress x = y then .ok x else .error ()
        | none => .error ()
      else .error ()
  | _ => .error ()

/-- The codec inverse law of the model. -/
theorem zstdDecompress_compress (x : List Nat) :
    zstdDecompress (zstdCompress x) = .ok x := by
  show zstdDecompress (40 :: 181 :: 47 :: 253 :: (encLen (rleEncode x).length ++
    rleEncode x)) = .ok x
  simp only [zstdDecompress, readLen255_enc]
  simp only [if_true, rleDecode_encode]
  rw [if_pos (show zstdCompress x =
    40 :: 181 :: 47 :: 253 :: (encLen (rleEncode x).length ++ rleEncode x) from rfl)]

/-- Decompression succeeds only on compressor output. -/
theorem zstdDecompress_ok (y x : List Nat) (h : zstdDecompress y = .ok x) :
    zstdCompress x = y := by
  unfold zstdDecompress at h
  split at h
  · split at h
    · exact absurd h (by simp)
    · split at h
      · split at h
        · split at h
          · injection h with h2
            subst h2
            assumption
          · exact absurd h (by simp)
        · exact absurd h (by simp)
      · exact absurd h (by simp)
  · exact absurd h (by simp)

/-- The compressor output determines the input: nothing shorter than a whole
frame is a frame. -/
theorem zstdCompress_left_cancel (a b : List Nat) (t : List Nat)
    (h : zstdCompress a ++ t = zstdCompress b) : a = b ∧ t = [] := by
  unfold zstdCompress at h
  simp only [List.cons_append] at h
  injection h with _ h
  injection h with _ h
  injection h with _ h
  injection h with _ h
  rw [List.append_assoc] at h
  obtain ⟨hlen, htail⟩ := encLen_prefix_code _ _ _ _ h
  have hlen2 : (rleEncode a).length + t.length = (rleEncode b).length := by
    have := congrArg List.length htail
    simpa [List.length_append] using this
  have ht : t = [] := by
    rw [← hlen] at hlen2
    have : t.length = 0 := by omega
    exact List.length_eq_zero.mp this
  subst ht
  rw [List.append_nil] at htail
  have hdec : rleDecode (rleEncode a) = rleDecode (rleEncode b) := by rw [htail]
  rw [rleDecode_encode, rleDecode_encode] at hdec
  injection hdec with hab
  exact ⟨hab, rfl⟩

/-- The chunk size of the streaming loops in encoder.py and decoder.py. -/
def CHUNK_SIZE : Nat := 1048576

theorem chunksOfF_join (k : Nat) (hk : 1 ≤ k) (fuel : Nat) : ∀ l : List Nat,
    l.length ≤ fuel → (chunksOfF k fuel l).flatten = l := by
  induction fuel with
  | zero =>
    intro l hl
    have : l = [] := List.length_eq_zero.mp (by omega)
    subst this
    rfl
  | succ f ih =>
    intro l hl
    cases l with
    | nil => rfl
    | cons c cs =>
      simp only [chunksOfF, List.flatten_cons]
      rw [ih ((c :: cs).drop k) (by
        simp only [List.length_drop, List.length_cons] at hl ⊢
        omega)]
      exact List.take_append_drop k (c :: cs)

/-- Joining the chunks gives back the data: the chunked write loop of
`pack_newspaper_page` feeds the compressor exactly the serialized bundle,
and the chunked read loop of `unpack_newspaper_page` accumulates exactly the
decompressed stream. -/
theorem chunksOf_join (k : Nat) (hk : 1 ≤ k) (l : List Nat) :
    (chunksOf k l).flatten = l :=
  chunksOfF_join k hk l.length l (le_refl _)

/-- The compression side of the streaming loop in `pack_newspaper_page`:
the serialized bundle is cut into chunks of `CHUNK_SIZE` and each chunk is
fed to the compressor in order. -/
def compressStream (data : List Nat) : List Nat :=
  zstdCompress (chunksOf CHUNK_SIZE data).flatten

/-- The decompression side of the streaming loop in `unpack_newspaper_page`:
the decompressed stream is read in chunks of `CHUNK_SIZE` which are
concatenated into the bundle buffer. -/
def decompressStream (y : List Nat) : Except Unit (List Nat) :=
  (zstdDecompress y).map (fun d => (chunksOf CHUNK_SIZE d).flatten)

theorem compressStream_eq (data : List Nat) : compressStream data = zstdCompress data := by
  unfold compressStream
  rw [chunksOf_join CHUNK_SIZE (by norm_num [CHUNK_SIZE]) data]

theorem decompressStream_compressStream (x : List Nat) :
    decompressStream (compressStream x) = .ok x := by
  rw [compressStream_eq]
  unfold decompressStream
  rw [zstdDecompress_compress]
  simp only [Except.map]
  rw [chunksOf_join CHUNK_SIZE (by norm_num [CHUNK_SIZE]) x]

/-! ## The Python exceptions the pipeline can raise.

The spec (section 7) maps them to its taxonomy: `zstdError` is the
DecompressionError condition, `jsonDecodeError`, `keyError` and `typeError`
are MalformedBundle conditions, `valueError` is the EncodingError raised by
`safe_b64_decode`, `unicodeDecodeError` is a failed text decode, and
`isADirectoryError` is the IoError of a file write that cannot create a
regular file. -/

inductive PyError where
  | zstdError
  | unicodeDecodeError
  | jsonDecodeError
  | keyError
  | typeError
  | valueError
  | isADirectoryError
deriving DecidableEq

/-! ## gtd.py: the Generative Token Dictionary -/

/-- Replace the binding of `k`, or append it, as Python dict assignment. -/
def setField : List (List Nat × Json) → List Nat → Json → List (List Nat × Json)
  | [], k, v => [(k, v)]
  | (k2, v2) :: rest, k, v =>
    if k2 = k then (k, v) :: rest else (k2, v2) :: setField rest k v

/-- `d[k] = v` on a document. -/
def jsonSet (j : Json) (k : List Nat) (v : Json) : Json :=
  match j with
  | .obj kvs => .obj (setField kvs k v)
  | _ => j

/-- The in-memory state of `GenerativeTokenDictionary`: its `dictionary`
attribute, holding the `layout_archetypes` and `element_archetypes` maps. -/
structure GenerativeTokenDictionary where
  dictionary : Json

/-- Model of `GenerativeTokenDictionary.get_layout_archetype`: a pure read. -/
def get_layout_archetype (g : GenerativeTokenDictionary)
    (archetype_id : List Nat) : Option Json :=
  match jsonGet g.dictionary (toCP "layout_archetypes") with
  | some d => jsonGet d archetype_id
  | none => none

/-- Model of `GenerativeTokenDictionary.add_layout_archetype`: updates the
dictionary state. -/
def add_layout_archetype (g : GenerativeTokenDictionary)
    (archetype_id description : List Nat) (structure_ : Json) :
    GenerativeTokenDictionary :=
  let entry := Json.obj [(toCP "description", .str description),
    (toCP "structure", structure_)]
  let las := (jsonGet g.dictionary (toCP "layout_archetypes")).getD (Json.obj [])
  ⟨jsonSet g.dictionary (toCP "layout_archetypes") (jsonSet las archetype_id entry)⟩

/-- Model of `GenerativeTokenDictionary.get_element_archetype`: a pure read. -/
def get_element_archetype (g : GenerativeTokenDictionary)
    (archetype_id : List Nat) : Option Json :=
  match jsonGet g.dictionary (toCP "element_archetypes") with
  | some d => jsonGet d archetype_id
  | none => none

/-! ## layout_tools.py -/

/-- The constant `elements_data` literal of `analyze_page_layout`. -/
def elements_data_const : Json :=
  Json.arr [
    Json.obj [(toCP "type", .str (toCP "headline")),
      (toCP "gtd_archetype_id", .str (toCP "ELEMENT_HEADLINE_LARGE_BOLD")),
      (toCP "position", Json.arr [.num (toCP "0.1"), .num (toCP "0.05"),
        .num (toCP "0.9"), .num (toCP "0.15")]),
      (toCP "content_ref", .str (toCP "headline_1"))],
    Json.obj [(toCP "type", .str (toCP "article")),
      (toCP "gtd_archetype_id", .str (toCP "ELEMENT_ARTICLE_TEXT_BLOCK")),
      (toCP "position", Json.arr [.num (toCP "0.05"), .num (toCP "0.2"),
        .num (toCP "0.45"), .num (toCP "0.7")]),
      (toCP "content_ref", .str (toCP "article_1"))],
    Json.obj [(toCP "type", .str (toCP "image")),
      (toCP "gtd_archetype_id", .str (toCP "ELEMENT_PHOTO_SQUARE_B&W")),
      (toCP "position", Json.arr [.num (toCP "0.5"), .num (toCP "0.25"),
        .num (toCP "0.75"), .num (toCP "0.45")]),
      (toCP "content_ref", .str (toCP "image_1"))]]

/-- Model of `analyze_page_layout` (a placeholder in the source): it only
reads the dictionary through `get_layout_archetype`, to print a warning when
the archetype is absent, and returns the constant layout structure together
with the unchanged dictionary handle. -/
def analyze_page_layout (image_path ocr_text_path : List Nat)
    (gtd_manager : GenerativeTokenDictionary) : Json × GenerativeTokenDictionary :=
  let layout_archetype_id := toCP "LAYOUT_FRONT_PAGE_1920S_A"
  let _archetype_present :=
    (get_layout_archetype gtd_manager layout_archetype_id).isSome
  (Json.obj [(toCP "layout_archetype_id", Json.str layout_archetype_id),
    (toCP "elements_data", elements_data_const)], gtd_manager)

/-! ## utils.py: metadata extraction -/

/-- The `for part in parts` loop of `extract_image_metadata`: the first token
containing "page", with "page" removed and the extension cut at the first
dot; "Unknown" when no token matches. -/
def page_num_loop (parts : List (List Nat)) : List Nat :=
  match parts with
  | [] => toCP "Unknown"
  | p :: rest =>
    if containsSeq (toCP "page") p then
      (pyRemoveAll (toCP "page") p).takeWhile (fun c => c != 46)
    else page_num_loop rest

/-- Model of `utils.extract_image_metadata`. -/
def extract_image_metadata (image_path : List Nat) : Json :=
  let filename := os_path_basename image_path
  let parts := pySplit 95 filename
  let publication := match parts with
    | p :: _ => p
    | [] => toCP "Unknown"
  let date := match parts with
    | _ :: d :: _ => d
    | _ => toCP "Unknown"
  let page_num := page_num_loop parts
  Json.obj [(toCP "filename", .str filename),
    (toCP "publication", .str publication),
    (toCP "date", .str date),
    (toCP "page_num", .str page_num),
    (toCP "original_path", .str image_path)]

/-! ## encoder.py: pack_newspaper_page -/

/-- What pack produces: the declared output path, the bytes written to it,
and the dictionary handle state after the call. -/
structure PackResult where
  output_filepath : List Nat
  written_archive : List Nat
  gtd_after : GenerativeTokenDictionary

/-- The `seed_manifest` dict literal of `pack_newspaper_page`. -/
def seed_manifest (image_path ocr_text_path : List Nat)
    (original_image_bytes original_text_content : List Nat)
    (page_layout_info : Json) : Json :=
  Json.obj [
    (toCP "version", .str (toCP "1.0")),
    (toCP "soulzip_spec", .str (toCP "lossless_v1")),
    (toCP "page_metadata", extract_image_metadata image_path),
    (toCP "image_filename", .str (os_path_basename image_path)),
    (toCP "text_filename", .str (os_path_basename ocr_text_path)),
    (toCP "image_hash", .str (generate_sha256_hash (.bytes original_image_bytes))),
    (toCP "text_hash", .str (generate_sha256_hash (.str original_text_content))),
    (toCP "layout_info", page_layout_info)]

/-- The `bundle_data` dict literal of `pack_newspaper_page`: the manifest and
the two payloads as base64 strings. -/
def bundle_data (manifest : Json) (original_image_bytes text_utf8_bytes : List Nat) : Json :=
  Json.obj [
    (toCP "manifest", manifest),
    (toCP "original_image_b64", .str (b64encode original_image_bytes)),
    (toCP "original_text_b64", .str (b64encode text_utf8_bytes))]

/-- `json.dumps(bundle_data, ensure_ascii=False).encode("utf-8")`. -/
def serialized_bundle (manifest : Json)
    (original_image_bytes text_utf8_bytes : List Nat) : List Nat :=
  utf8Encode (render (bundle_data manifest original_image_bytes text_utf8_bytes))

/-- Model of `encoder.pack_newspaper_page`. File reads become the byte and
text arguments; the write of the compressed stream becomes the
`written_archive` field; the dictionary handle is threaded through
`analyze_page_layout` and returned. -/
def pack_newspaper_page (image_path ocr_text_path : List Nat)
    (original_image_bytes original_text_content : List Nat)
    (gtd_manager : GenerativeTokenDictionary) (output_filepath : List Nat) : PackResult :=
  let pl := analyze_page_layout image_path ocr_text_path gtd_manager
  let manifest := seed_manifest image_path ocr_text_path original_image_bytes
    original_text_content pl.1
  let sb := serialized_bundle manifest original_image_bytes
    (utf8Encode original_text_content)
  { output_filepath := output_filepath
    written_archive := compressStream sb
    gtd_after := pl.2 }

/-! ## decoder.py: unpack_newspaper_page -/

/-- Model of `utils.safe_b64_decode`: `base64.b64decode` with the ValueError
wrapper. -/
def safe_b64_decode (data : List Nat) : Except PyError (List Nat) :=
  match pyB64Decode data with
  | .ok b => .ok b
  | .error _ => .error .valueError

/-- The deserialization stage of `unpack_newspaper_page` (decoder.py lines
325 to 331): parse the decompressed bytes as UTF-8 JSON, base64-decode the
image payload, base64-decode and UTF-8-decode the text payload, then take
the manifest. Failures in source order: UnicodeDecodeError, then
json.JSONDecodeError, then KeyError or TypeError on the lookups, ValueError
from `safe_b64_decode`. -/
def deserialize_bundle (decompressed_bundle_bytes : List Nat) :
    Except PyError (Json × List Nat × List Nat) :=
  match utf8Decode decompressed_bundle_bytes with
  | none => .error .unicodeDecodeError
  | some cps =>
    match json_loads cps with
    | none => .error .jsonDecodeError
    | some bundle =>
      match jsonGet bundle (toCP "original_image_b64") with
      | none => .error .keyError
      | some (.str istr) =>
        match safe_b64_decode istr with
        | .error e => .error e
        | .ok original_image_bytes =>
          match jsonGet bundle (toCP "original_text_b64") with
          | none => .error .keyError
          | some (.str tstr) =>
            match safe_b64_decode tstr with
            | .error e => .error e
            | .ok tbytes =>
              match utf8Decode tbytes with
              | none => .error .unicodeDecodeError
              | some original_text_content =>
                match jsonGet bundle (toCP "manifest") with
                | none => .error .keyError
                | some manifest =>
                  .ok (manifest, original_image_bytes, original_text_content)
          | some _ => .error .typeError
      | some _ => .error .typeError

/-- A base name the filesystem refuses to open as a regular file for
writing: empty, the current directory or the parent directory. -/
def degenerateName (n : List Nat) : Bool :=
  n = ([] : List Nat) || n = toCP "." || n = toCP ".."

/-- What unpack produces: the manifest, the two reconstruction paths, and
the write log of (path, bytes) in write order. -/
structure UnpackResult where
  manifest : Json
  reconstructed_image_path : List Nat
  reconstructed_text_path : List Nat
  files : List (List Nat × List Nat)

/-- Read a path from a write log; the last write wins, as on a filesystem. -/
def readFs (files : List (List Nat × List Nat)) (p : List Nat) : Option (List Nat) :=
  match files with
  | [] => none
  | (q, b) :: rest =>
    match readFs rest p with
    | some b2 => some b2
    | none => if q = p then some b else none

/-- Model of `decoder.unpack_newspaper_page`. The archive read becomes the
byte argument; the two file writes become the `files` log. Modelled from the
spec for the write step: opening a path whose base name is empty, a dot or a
double dot for writing cannot create a regular file and raises the IoError
of spec section 4.5, here `isADirectoryError`. -/
def unpack_newspaper_page (archive_bytes : List Nat) (output_dir : List Nat) :
    Except PyError UnpackResult :=
  match decompressStream archive_bytes with
  | .error _ => .error .zstdError
  | .ok decompressed_bundle_bytes =>
    match deserialize_bundle decompressed_bundle_bytes with
    | .error e => .error e
    | .ok (manifest, original_image_bytes, original_text_content) =>
      match jsonGet manifest (toCP "image_filename") with
      | none => .error .keyError
      | some (.str imf) =>
        match jsonGet manifest (toCP "text_filename") with
        | none => .error .keyError
        | some (.str txf) =>
          let image_filename := os_path_basename imf
          let text_filename := os_path_basename txf
          if degenerateName image_filename || degenerateName text_filename then
            .error .isADirectoryError
          else
            let reconstructed_image_path := os_path_join output_dir image_filename
            let reconstructed_text_path := os_path_join output_dir text_filename
            .ok { manifest := manifest
                  reconstructed_image_path := reconstructed_image_path
                  reconstructed_text_path := reconstructed_text_path
                  files := [(reconstructed_image_path, original_image_bytes),
                    (reconstructed_text_path, utf8Encode original_text_content)] }
        | some _ => .error .typeError
      | some _ => .error .typeError

/-! ## validator.py: validate_reconstruction -/

/-- The validation flags dict. -/
structure ValidationResults where
  image_hash_match : Bool
  text_hash_match : Bool
deriving DecidableEq

/-- Universal-newlines translation, as `open(path, 'r', encoding='utf-8')`
(with the default `newline=None`) performs on the decoded stream: every
carriage-return/line-feed pair and every lone carriage return become one
line feed. -/
def universalNewlines : List Nat → List Nat
  | [] => []
  | [c] => if c = 13 then [10] else [c]
  | c :: c2 :: rest =>
    if c = 13 then
      if c2 = 10 then 10 :: universalNewlines rest
      else 10 :: universalNewlines (c2 :: rest)
    else c :: universalNewlines (c2 :: rest)

theorem universalNewlines_cons_ne (c : Nat) (rest : List Nat) (hc : c ≠ 13) :
    universalNewlines (c :: rest) = c :: universalNewlines rest := by
  cases rest with
  | nil =>
    simp only [universalNewlines]
    rw [if_neg hc]
  | cons c2 r2 =>
    simp only [universalNewlines]
    rw [if_neg hc]

theorem universalNewlines_no13 (l : List Nat) (h : l.contains 13 = false) :
    universalNewlines l = l := by
  induction l with
  | nil => rfl
  | cons c rest ih =>
    simp only [List.contains_cons, Bool.or_eq_false_iff] at h
    obtain ⟨h1, h2⟩ := h
    rw [universalNewlines_cons_ne c rest (by
      intro hcontra
      rw [hcontra] at h1
      simp at h1), ih h2]

/-- Model of `validator.validate_reconstruction`, over the bytes of the two
reconstructed files. The image file is read as bytes and hashed; the text
file is opened in text mode, so its bytes go through strict UTF-8 decoding
(a corrupt text file raises UnicodeDecodeError here) followed by
universal-newlines translation, and the translated string is hashed through
`generate_sha256_hash`. A missing manifest hash key raises KeyError;
comparing against a non-string manifest entry is simply unequal. -/
def validate_reconstruction (manifest : Json) (reconstructed_image_bytes : List Nat)
    (reconstructed_text_file_bytes : List Nat) : Except PyError ValidationResults :=
  let reconstructed_image_hash := generate_sha256_hash (.bytes reconstructed_image_bytes)
  match jsonGet manifest (toCP "image_hash") with
  | none => .error .keyError
  | some ihv =>
    let image_hash_match := match ihv with
      | .str h => reconstructed_image_hash == h
      | _ => false
    match utf8Decode reconstructed_text_file_bytes with
    | none => .error .unicodeDecodeError
    | some decoded_text =>
      let reconstructed_text_content := universalNewlines decoded_text
      match jsonGet manifest (toCP "text_hash") with
      | none => .error .keyError
      | some thv =>
        let text_hash_match := match thv with
          | .str h => generate_sha256_hash (.str reconstructed_text_content) == h
          | _ => false
        .ok ⟨image_hash_match, text_hash_match⟩

/-- The serializer of spec section 4.3, as pack performs it: manifest plus
payloads to one UTF-8 JSON byte sequence, the text content entering as its
UTF-8 encoding. -/
def serialize_bundle (manifest : Json) (asset_bytes text_content : List Nat) : List Nat :=
  serialized_bundle manifest asset_bytes (utf8Encode text_content)

/-! ## Shape of the hex digest and character classes of rendered output -/

theorem shaRounds_length (kw : List (Nat × Nat)) : ∀ st : List Nat, st.length = 8 →
    (shaRounds st kw).length = 8 := by
  induction kw with
  | nil => intro st h; simpa [shaRounds] using h
  | cons p rest ih =>
    intro st h
    obtain ⟨k, w⟩ := p
    rcases st with _ | ⟨a, st⟩
    · simp at h
    rcases st with _ | ⟨b, st⟩
    · simp at h
    rcases st with _ | ⟨c, st⟩
    · simp at h
    rcases st with _ | ⟨d, st⟩
    · simp at h
    rcases st with _ | ⟨e, st⟩
    · simp at h
    rcases st with _ | ⟨f, st⟩
    · simp at h
    rcases st with _ | ⟨g, st⟩
    · simp at h
    rcases st with _ | ⟨hh, st⟩
    · simp at h
    rcases st with _ | ⟨x, st⟩
    · exact ih _ (by simp)
    · simp at h

theorem shaCompress_length (h block : List Nat) (hl : h.length = 8) :
    (shaCompress h block).length = 8 := by
  unfold shaCompress
  rw [List.length_map, List.length_zip, hl,
    shaRounds_length _ h hl]
  simp

theorem foldl_shaCompress_length (blocks : List (List Nat)) :
    ∀ h : List Nat, h.length = 8 → (blocks.foldl shaCompress h).length = 8 := by
  induction blocks with
  | nil =>
    intro h hl
    simpa using hl
  | cons b bs ih =>
    intro h hl
    exact ih _ (shaCompress_length h b hl)

theorem sha256_length (m : List Nat) : (sha256 m).length = 8 :=
  foldl_shaCompress_length _ shaH0 rfl

theorem toHex8_length (x : Nat) : (toHex8 x).length = 8 := rfl

theorem sha256hex_length (m : List Nat) : (sha256hex m).length = 64 := by
  unfold sha256hex
  have h8 := sha256_length m
  generalize sha256 m = ws at h8
  rcases ws with _ | ⟨a, ws⟩
  · simp at h8
  rcases ws with _ | ⟨b, ws⟩
  · simp at h8
  rcases ws with _ | ⟨c, ws⟩
  · simp at h8
  rcases ws with _ | ⟨d, ws⟩
  · simp at h8
  rcases ws with _ | ⟨e, ws⟩
  · simp at h8
  rcases ws with _ | ⟨f, ws⟩
  · simp at h8
  rcases ws with _ | ⟨g, ws⟩
  · simp at h8
  rcases ws with _ | ⟨hh, ws⟩
  · simp at h8
  rcases ws with _ | ⟨x, ws⟩
  · rfl
  · simp at h8

theorem hexLower_class (k : Nat) (hk : k < 16) :
    (48 ≤ hexLower k ∧ hexLower k ≤ 57) ∨ (97 ≤ hexLower k ∧ hexLower k ≤ 102) := by
  unfold hexLower
  split <;> omega

theorem toHex8_class (x : Nat) (c : Nat) (hc : c ∈ toHex8 x) :
    (48 ≤ c ∧ c ≤ 57) ∨ (97 ≤ c ∧ c ≤ 102) := by
  simp [toHex8] at hc
  rcases hc with rfl | rfl | rfl | rfl | rfl | rfl | rfl | rfl <;>
    exact hexLower_class _ (Nat.mod_lt _ (by omega))

theorem sha256hex_class (m : List Nat) (c : Nat) (hc : c ∈ sha256hex m) :
    (48 ≤ c ∧ c ≤ 57) ∨ (97 ≤ c ∧ c ≤ 102) := by
  simp only [sha256hex, List.mem_flatMap] at hc
  obtain ⟨w, _, hcw⟩ := hc
  exact toHex8_class w c hcw

theorem sha256hex_scalar (m : List Nat) : scalarOk (sha256hex m) = true := by
  rw [scalarOk_iff]
  intro c hc
  have := sha256hex_class m c hc
  omega

theorem ascii_scalar (l : List Nat) (h : ∀ c ∈ l, c < 128) : scalarOk l = true := by
  rw [scalarOk_iff]
  intro c hc
  have := h c hc
  omega

theorem b64encode_scalar (b : List Nat) (h : allBytes b = true) :
    scalarOk (b64encode b) = true :=
  ascii_scalar _ (b64encode_ascii b h)

theorem scalarOk_append (a b : List Nat) :
    scalarOk (a ++ b) = (scalarOk a && scalarOk b) := by
  simp [scalarOk, List.all_append]

theorem scalarOk_of_subset (l2 l1 : List Nat) (hsub : ∀ c ∈ l2, c ∈ l1)
    (h : scalarOk l1 = true) : scalarOk l2 = true := by
  rw [scalarOk_iff] at h ⊢
  exact fun c hc => h c (hsub c hc)

theorem numCore_ascii (u : List Nat) (h : numCore u = some (u, [])) :
    ∀ c ∈ u, c < 128 := by
  rcases hpi : parseIntPart u with _ | ⟨ip, r1⟩
  · rw [numCore, hpi] at h
    simp at h
  · obtain ⟨hu1, hshape⟩ := parseIntPart_spec u ip r1 hpi
    rcases hfp : parseFracPart r1 with ⟨f1, f2⟩
    obtain ⟨hr1, hfshape⟩ := parseFracPart_spec r1 f1 f2 hfp
    rcases hep : parseExpPart f2 with ⟨e1, e2⟩
    obtain ⟨hf2, heshape⟩ := parseExpPart_spec f2 e1 e2 hep
    rw [numCore, hpi] at h
    simp only [hfp, hep, Option.some.injEq, Prod.mk.injEq] at h
    obtain ⟨hueq, he2⟩ := h
    intro c hc
    rw [← hueq] at hc
    simp only [List.mem_append] at hc
    rcases hc with (hc | hc) | hc
    · rcases hshape with rfl | ⟨d, ds, rfl, hd1, hd2, hds, _⟩
      · simp at hc
        omega
      · rcases List.mem_cons.mp hc with rfl | hc
        · omega
        · have := hds c hc
          simp [isDigitCp] at this
          omega
    · rcases hfshape with ⟨rfl, _⟩ | ⟨ds, rfl, _, hds, _⟩
      · simp at hc
      · rcases List.mem_cons.mp hc with rfl | hc
        · omega
        · have := hds c hc
          simp [isDigitCp] at this
          omega
    · rcases heshape with ⟨rfl, _⟩ | ⟨e, sgl, ds, rfl, he, hsgl, _, hds, _⟩
      · simp at hc
      · rcases List.mem_cons.mp hc with rfl | hc
        · omega
        · rcases List.mem_append.mp hc with hc | hc
          · rcases hsgl with rfl | rfl | rfl
            · simp at hc
            · simp at hc
              omega
            · simp at hc
              omega
          · have := hds c hc
            simp [isDigitCp] at this
            omega

theorem numLit_ascii (lit : List Nat) (h : numLitOk lit = true) : ∀ c ∈ lit, c < 128 := by
  have h2 : parseNumberTok lit = some (lit, []) := by simpa [numLitOk] using h
  cases lit with
  | nil => simp
  | cons c l1 =>
    by_cases hc45 : c = 45
    · subst hc45
      have h3 : (numCore l1).map (fun p => ((45 : Nat) :: p.1, p.2)) =
          some (45 :: l1, []) := by
        simpa [parseNumberTok] using h2
      rcases hcore : numCore l1 with _ | ⟨u, r⟩
      · rw [hcore] at h3
        simp at h3
      · rw [hcore] at h3
        simp only [Option.map_some', Option.some.injEq, Prod.mk.injEq] at h3
        obtain ⟨hu, hr⟩ := h3
        have hu2 : u = l1 := by injection hu
        subst hr
        rw [hu2] at hcore
        intro d hd
        rcases List.mem_cons.mp hd with rfl | hd
        · omega
        · exact numCore_ascii l1 hcore d hd
    · have h3 : numCore (c :: l1) = some (c :: l1, []) := by
        simpa [parseNumberTok, hc45] using h2
      exact numCore_ascii (c :: l1) h3

theorem escCp_mem (c d : Nat) (hd : d ∈ escCp c) : d = c ∨ d < 128 := by
  unfold escCp at hd
  by_cases h34 : c = 34
  · simp [h34] at hd
    omega
  · rw [if_neg h34] at hd
    by_cases h92 : c = 92
    · simp [h92] at hd
      omega
    · rw [if_neg h92] at hd
      by_cases h8 : c = 8
      · simp [h8] at hd; omega
      · rw [if_neg h8] at hd
        by_cases h9 : c = 9
        · simp [h9] at hd; omega
        · rw [if_neg h9] at hd
          by_cases h10 : c = 10
          · simp [h10] at hd; omega
          · rw [if_neg h10] at hd
            by_cases h12 : c = 12
            · simp [h12] at hd; omega
            · rw [if_neg h12] at hd
              by_cases h13 : c = 13
              · simp [h13] at hd; omega
              · rw [if_neg h13] at hd
                by_cases hctl : c < 32
                · rw [if_pos hctl] at hd
                  have hx1 : hexLower (c / 16) < 128 := by
                    unfold hexLower
                    split <;> omega
                  have hx2 : hexLower (c % 16) < 128 := by
                    unfold hexLower
                    split <;> omega
                  simp at hd
                  rcases hd with rfl | rfl | rfl | rfl | rfl | rfl <;> omega
                · rw [if_neg hctl] at hd
                  simp at hd
                  omega

theorem escStr_scalar (s : List Nat) (h : scalarOk s = true) :
    scalarOk (escStr s) = true := by
  rw [scalarOk_iff] at h ⊢
  intro d hd
  simp only [escStr, List.mem_flatMap] at hd
  obtain ⟨c, hc, hdc⟩ := hd
  rcases escCp_mem c d hdc with rfl | hlt
  · exact h d hc
  · omega

mutual

theorem render_scalar : ∀ j : Json, wfJson j = true → scalarOk (render j) = true
  | .str s, h => by
    have hs : scalarOk s = true := by simpa [wfJson] using h
    have := escStr_scalar s hs
    rw [show render (Json.str s) = 34 :: escStr s ++ [34] from rfl]
    rw [scalarOk_iff] at this ⊢
    intro c hc
    simp at hc
    rcases hc with rfl | hc | rfl
    · omega
    · exact this c hc
    · omega
  | .num lit, h => by
    have := numLit_ascii lit (by simpa [wfJson] using h)
    rw [show render (Json.num lit) = lit from rfl]
    exact ascii_scalar lit this
  | .bool b, _ => by cases b <;> decide
  | .null, _ => by decide
  | .arr xs, h => by
    have hl := renderElems_scalar xs (by simpa [wfJson] using h)
    rw [show render (Json.arr xs) = 91 :: renderElems xs ++ [93] from rfl]
    rw [scalarOk_iff] at hl ⊢
    intro c hc
    simp at hc
    rcases hc with rfl | hc | rfl
    · omega
    · exact hl c hc
    · omega
  | .obj kvs, h => by
    have hl := renderFields_scalar kvs (by simpa [wfJson] using h)
    rw [show render (Json.obj kvs) = 123 :: renderFields kvs ++ [125] from rfl]
    rw [scalarOk_iff] at hl ⊢
    intro c hc
    simp at hc
    rcases hc with rfl | hc | rfl
    · omega
    · exact hl c hc
    · omega

theorem renderElems_scalar : ∀ xs : List Json, wfList xs = true →
    scalarOk (renderElems xs) = true
  | [], _ => by decide
  | [x], h => by
    have := render_scalar x (wfList_cons x [] h).1
    rw [show renderElems [x] = render x from rfl]
    exact this
  | x :: y :: t, h => by
    have hx := render_scalar x (wfList_cons x (y :: t) h).1
    have ht := renderElems_scalar (y :: t) (wfList_cons x (y :: t) h).2
    rw [show renderElems (x :: y :: t) = render x ++ 44 :: 32 :: renderElems (y :: t)
      from rfl]
    rw [scalarOk_iff] at hx ht ⊢
    intro c hc
    simp at hc
    rcases hc with hc | rfl | rfl | hc
    · exact hx c hc
    · omega
    · omega
    · exact ht c hc

theorem renderFields_scalar : ∀ kvs : List (List Nat × Json), wfFields kvs = true →
    scalarOk (renderFields kvs) = true
  | [], _ => by decide
  | [(k, v)], h => by
    obtain ⟨hsk, hwv, _⟩ := wfFields_cons k v [] h
    have hk := escStr_scalar k hsk
    have hv := render_scalar v hwv
    rw [show renderFields [(k, v)] = 34 :: escStr k ++ 34 :: 58 :: 32 :: render v from rfl]
    rw [scalarOk_iff] at hk hv ⊢
    intro c hc
    simp at hc
    rcases hc with rfl | hc | rfl | rfl | rfl | hc
    · omega
    · exact hk c hc
    · omega
    · omega
    · omega
    · exact hv c hc
  | (k, v) :: g :: gs, h => by
    obtain ⟨hsk, hwv, hwt⟩ := wfFields_cons k v (g :: gs) h
    have hk := escStr_scalar k hsk
    have hv := render_scalar v hwv
    have ht := renderFields_scalar (g :: gs) hwt
    rw [show renderFields ((k, v) :: g :: gs) =
      34 :: escStr k ++ 34 :: 58 :: 32 :: render v ++ 44 :: 32 :: renderFields (g :: gs)
      from rfl]
    rw [scalarOk_iff] at hk hv ht ⊢
    intro c hc
    simp at hc
    rcases hc with rfl | hc | rfl | rfl | rfl | hc | rfl | rfl | hc
    · omega
    · exact hk c hc
    · omega
    · omega
    · omega
    · exact hv c hc
    · omega
    · omega
    · exact ht c hc

end

theorem os_path_basename_mem (p : List Nat) : ∀ c ∈ os_path_basename p, c ∈ p := by
  induction p with
  | nil => simp [os_path_basename]
  | cons a rest ih =>
    intro c hc
    unfold os_path_basename at hc
    by_cases h47 : rest.contains 47
    · rw [if_pos h47] at hc
      exact List.mem_cons_of_mem a (ih c hc)
    · rw [if_neg h47] at hc
      by_cases ha : a = 47
      · rw [if_pos ha] at hc
        exact List.mem_cons_of_mem a hc
      · rw [if_neg ha] at hc
        exact hc

theorem pySplit_mem (sep : Nat) (l : List Nat) :
    ∀ part ∈ pySplit sep l, ∀ c ∈ part, c ∈ l := by
  induction l with
  | nil =>
    intro part hp c hc
    simp [pySplit] at hp
    subst hp
    simp at hc
  | cons a rest ih =>
    intro part hp c hc
    unfold pySplit at hp
    rcases hps : pySplit sep rest with _ | ⟨g, gs⟩
    · rw [hps] at hp
      simp at hp
      subst hp
      simp at hc
      simp [hc]
    · rw [hps] at hp
      dsimp only at hp
      by_cases ha : a = sep
      · rw [if_pos ha] at hp
        rcases List.mem_cons.mp hp with rfl | hp
        · simp at hc
        · exact List.mem_cons_of_mem a (ih part (by rw [hps]; exact hp) c hc)
      · rw [if_neg ha] at hp
        rcases List.mem_cons.mp hp with rfl | hp
        · rcases List.mem_cons.mp hc with rfl | hc
          · simp
          · exact List.mem_cons_of_mem a (ih g (by rw [hps]; simp) c hc)
        · exact List.mem_cons_of_mem a
            (ih part (by rw [hps]; exact List.mem_cons_of_mem g hp) c hc)

theorem pyRemoveAllF_mem (pat : List Nat) (fuel : Nat) : ∀ l : List Nat,
    ∀ c ∈ pyRemoveAllF pat fuel l, c ∈ l := by
  induction fuel with
  | zero =>
    intro l c hc
    simpa [pyRemoveAllF] using hc
  | succ f ih =>
    intro l c hc
    cases l with
    | nil => simpa [pyRemoveAllF] using hc
    | cons a rest =>
      unfold pyRemoveAllF at hc
      by_cases hs : startsWithSeq pat (a :: rest) = true
      · rw [if_pos hs] at hc
        have := ih ((a :: rest).drop pat.length) c hc
        exact List.mem_of_mem_drop this
      · rw [if_neg hs] at hc
        rcases List.mem_cons.mp hc with rfl | hc
        · simp
        · exact List.mem_cons_of_mem a (ih rest c hc)

theorem pyRemoveAll_mem (pat l : List Nat) : ∀ c ∈ pyRemoveAll pat l, c ∈ l :=
  pyRemoveAllF_mem pat l.length l

theorem page_num_loop_scalar (parts : List (List Nat))
    (h : ∀ part ∈ parts, scalarOk part = true) :
    scalarOk (page_num_loop parts) = true := by
  induction parts with
  | nil => decide
  | cons p rest ih =>
    unfold page_num_loop
    by_cases hc : containsSeq (toCP "page") p = true
    · rw [if_pos hc]
      have hp : scalarOk p = true := h p (by simp)
      apply scalarOk_of_subset _ p
      · intro c hcc
        have h1 : c ∈ pyRemoveAll (toCP "page") p := by
          have := (List.takeWhile_sublist (l := pyRemoveAll (toCP "page") p)
            (p := fun c => c != 46)).subset
          exact this hcc
        exact pyRemoveAll_mem _ p c h1
      · exact hp
    · rw [if_neg hc]
      exact ih (fun part hp => h part (by simp [hp]))

theorem extract_image_metadata_wf (image_path : List Nat)
    (h : scalarOk image_path = true) :
    wfJson (extract_image_metadata image_path) = true := by
  have hfn : scalarOk (os_path_basename image_path) = true :=
    scalarOk_of_subset _ _ (os_path_basename_mem image_path) h
  have hparts : ∀ part ∈ pySplit 95 (os_path_basename image_path),
      scalarOk part = true := by
    intro part hp
    exact scalarOk_of_subset _ _
      (fun c hc => os_path_basename_mem image_path c
        (pySplit_mem 95 (os_path_basename image_path) part hp c hc)) h
  have hpub : scalarOk (match pySplit 95 (os_path_basename image_path) with
      | p :: _ => p
      | [] => toCP "Unknown") = true := by
    rcases hps : pySplit 95 (os_path_basename image_path) with _ | ⟨p, rest⟩
    · decide
    · exact hparts p (by rw [hps]; simp)
  have hdate : scalarOk (match pySplit 95 (os_path_basename image_path) with
      | _ :: d :: _ => d
      | _ => toCP "Unknown") = true := by
    rcases hps : pySplit 95 (os_path_basename image_path) with _ | ⟨p, rest⟩
    · decide
    · rcases rest with _ | ⟨d, rest2⟩
      · exact (by decide : scalarOk (toCP "Unknown") = true)
      · exact hparts d (by rw [hps]; simp)
  have hpn : scalarOk (page_num_loop (pySplit 95 (os_path_basename image_path))) = true :=
    page_num_loop_scalar _ hparts
  unfold extract_image_metadata
  simp only [wfJson, wfFields, hasKey, Bool.and_eq_true, Bool.not_eq_true',
    Bool.or_eq_false_iff]
  refine ⟨⟨⟨by decide, ?_⟩, hfn⟩, ⟨⟨by decide, ?_⟩, hpub⟩, ⟨⟨by decide, ?_⟩, hdate⟩,
    ⟨⟨by decide, ?_⟩, hpn⟩, ⟨⟨by decide, by decide⟩, h⟩, by decide⟩ <;> decide

theorem bundle_data_wf (m : Json) (a tb : List Nat) (hm : wfJson m = true)
    (ha : allBytes a = true) (htb : allBytes tb = true) :
    wfJson (bundle_data m a tb) = true := by
  unfold bundle_data
  simp only [wfJson, wfFields, hasKey, Bool.and_eq_true, Bool.not_eq_true',
    Bool.or_eq_false_iff]
  exact ⟨⟨⟨by decide, by decide⟩, hm⟩, ⟨⟨by decide, by decide⟩, b64encode_scalar a ha⟩,
    ⟨⟨by decide, by decide⟩, b64encode_scalar tb htb⟩, by decide⟩

theorem bundle_get_image (m : Json) (a tb : List Nat) :
    jsonGet (bundle_data m a tb) (toCP "original_image_b64") =
      some (.str (b64encode a)) := rfl

theorem bundle_get_text (m : Json) (a tb : List Nat) :
    jsonGet (bundle_data m a tb) (toCP "original_text_b64") =
      some (.str (b64encode tb)) := rfl

theorem bundle_get_manifest (m : Json) (a tb : List Nat) :
    jsonGet (bundle_data m a tb) (toCP "manifest") = some m := rfl

/-- The serializer inverse law at the bundle level: deserialization returns
exactly the manifest, asset bytes and text content that were serialized. -/
theorem deserialize_serialize (m : Json) (a t : List Nat) (hm : wfJson m = true)
    (ha : allBytes a = true) (ht : scalarOk t = true) :
    deserialize_bundle (serialize_bundle m a t) = .ok (m, a, t) := by
  have htb : allBytes (utf8Encode t) = true := utf8Encode_bytes t ht
  have hwbd : wfJson (bundle_data m a (utf8Encode t)) = true := bundle_data_wf m a _ hm ha htb
  have hrs : scalarOk (render (bundle_data m a (utf8Encode t))) = true :=
    render_scalar _ hwbd
  unfold serialize_bundle serialized_bundle deserialize_bundle
  rw [utf8Decode_encode _ hrs]
  dsimp only
  rw [json_loads_render _ hwbd]
  dsimp only
  rw [bundle_get_image]
  dsimp only
  unfold safe_b64_decode
  rw [pyB64Decode_encode a ha]
  dsimp only
  rw [bundle_get_text]
  dsimp only
  rw [pyB64Decode_encode _ htb]
  dsimp only
  rw [utf8Decode_encode t ht]
  dsimp only
  rw [bundle_get_manifest]

theorem seed_manifest_wf (image_path ocr_text_path a t : List Nat) (li : Json)
    (hip : scalarOk image_path = true) (htp : scalarOk ocr_text_path = true)
    (hli : wfJson li = true) :
    wfJson (seed_manifest image_path ocr_text_path a t li) = true := by
  unfold seed_manifest
  simp only [wfJson, wfFields, hasKey, Bool.and_eq_true, Bool.not_eq_true',
    Bool.or_eq_false_iff]
  refine ⟨⟨⟨by decide, by decide⟩, by decide⟩,
    ⟨⟨by decide, by decide⟩, by decide⟩,
    ⟨⟨by decide, by decide⟩, extract_image_metadata_wf image_path hip⟩,
    ⟨⟨by decide, by decide⟩,
      scalarOk_of_subset _ _ (os_path_basename_mem image_path) hip⟩,
    ⟨⟨by decide, by decide⟩,
      scalarOk_of_subset _ _ (os_path_basename_mem ocr_text_path) htp⟩,
    ⟨⟨by decide, by decide⟩, ?_⟩,
    ⟨⟨by decide, by decide⟩, ?_⟩,
    ⟨⟨by decide, by decide⟩, hli⟩, by decide⟩
  · exact sha256hex_scalar a
  · exact sha256hex_scalar (utf8Encode t)

theorem manifest_get_image_filename (image_path ocr_text_path a t : List Nat) (li : Json) :
    jsonGet (seed_manifest image_path ocr_text_path a t li) (toCP "image_filename") =
      some (.str (os_path_basename image_path)) := rfl

theorem manifest_get_text_filename (image_path ocr_text_path a t : List Nat) (li : Json) :
    jsonGet (seed_manifest image_path ocr_text_path a t li) (toCP "text_filename") =
      some (.str (os_path_basename ocr_text_path)) := rfl

theorem manifest_get_image_hash (image_path ocr_text_path a t : List Nat) (li : Json) :
    jsonGet (seed_manifest image_path ocr_text_path a t li) (toCP "image_hash") =
      some (.str (generate_sha256_hash (.bytes a))) := rfl

theorem manifest_get_text_hash (image_path ocr_text_path a t : List Nat) (li : Json) :
    jsonGet (seed_manifest image_path ocr_text_path a t li) (toCP "text_hash") =
      some (.str (generate_sha256_hash (.str t))) := rfl

theorem os_path_basename_no47 (p : List Nat) :
    (os_path_basename p).contains 47 = false := by
  induction p with
  | nil => rfl
  | cons c rest ih =>
    unfold os_path_basename
    by_cases h47 : rest.contains 47
    · rw [if_pos h47]
      exact ih
    · rw [if_neg h47]
      by_cases hc : c = 47
      · rw [if_pos hc]
        simpa using h47
      · rw [if_neg hc]
        simp only [List.contains_cons]
        simp only [Bool.or_eq_false_iff]
        constructor
        · simpa using fun h => hc h.symm
        · simpa using h47

theorem os_path_basename_of_no47 (l : List Nat) (h : l.contains 47 = false) :
    os_path_basename l = l := by
  cases l with
  | nil => rfl
  | cons c rest =>
    simp only [List.contains_cons, Bool.or_eq_false_iff] at h
    unfold os_path_basename
    rw [if_neg (by
      intro hcontra
      rw [h.2] at hcontra
      cases hcontra), if_neg (by
      intro hc
      have := h.1
      simp [hc] at this)]

theorem os_path_basename_idem (p : List Nat) :
    os_path_basename (os_path_basename p) = os_path_basename p :=
  os_path_basename_of_no47 _ (os_path_basename_no47 p)

/-- The full pack-then-unpack round trip, resolved to the exact result
record. -/
theorem unpack_pack (image_path ocr_text_path a t : List Nat)
    (g : GenerativeTokenDictionary) (out output_dir : List Nat)
    (hip : scalarOk image_path = true) (htp : scalarOk ocr_text_path = true)
    (ha : allBytes a = true) (ht : scalarOk t = true)
    (hd1 : degenerateName (os_path_basename image_path) = false)
    (hd2 : degenerateName (os_path_basename ocr_text_path) = false) :
    unpack_newspaper_page
      (pack_newspaper_page image_path ocr_text_path a t g out).written_archive
      output_dir =
    .ok { manifest := seed_manifest image_path ocr_text_path a t
            (analyze_page_layout image_path ocr_text_path g).1
          reconstructed_image_path := os_path_join output_dir (os_path_basename image_path)
          reconstructed_text_path :=
            os_path_join output_dir (os_path_basename ocr_text_path)
          files := [(os_path_join output_dir (os_path_basename image_path), a),
            (os_path_join output_dir (os_path_basename ocr_text_path), utf8Encode t)] } := by
  have hli : wfJson (analyze_page_layout image_path ocr_text_path g).1 = true := by
    show wfJson (Json.obj [(toCP "layout_archetype_id",
      Json.str (toCP "LAYOUT_FRONT_PAGE_1920S_A")),
      (toCP "elements_data", elements_data_const)]) = true
    decide
  have hwm : wfJson (seed_manifest image_path ocr_text_path a t
      (analyze_page_layout image_path ocr_text_path g).1) = true :=
    seed_manifest_wf image_path ocr_text_path a t _ hip htp hli
  have harch : (pack_newspaper_page image_path ocr_text_path a t g out).written_archive =
      compressStream (serialize_bundle (seed_manifest image_path ocr_text_path a t
        (analyze_page_layout image_path ocr_text_path g).1) a t) := rfl
  rw [harch]
  unfold unpack_newspaper_page
  rw [decompressStream_compressStream]
  dsimp only
  rw [deserialize_serialize _ a t hwm ha ht]
  dsimp only
  rw [manifest_get_image_filename]
  dsimp only
  rw [manifest_get_text_filename]
  dsimp only
  rw [os_path_basename_idem, os_path_basename_idem, hd1, hd2]
  rfl

/-! ## Observation helpers over the unpack result -/

/-- Did the call succeed? -/
def exceptIsOk {E A : Type} (e : Except E A) : Bool :=
  match e with
  | .ok _ => true
  | .error _ => false

/-- The manifest of a successful unpack. -/
def unpackedManifest (e : Except PyError UnpackResult) : Option Json :=
  match e with
  | .ok r => some r.manifest
  | .error _ => none

/-- The write log of a successful unpack. -/
def unpackedFiles (e : Except PyError UnpackResult) : Option (List (List Nat × List Nat)) :=
  match e with
  | .ok r => some r.files
  | .error _ => none

/-- The bytes found at the reconstructed asset path of a successful unpack. -/
def unpackReadImage (e : Except PyError UnpackResult) : Option (List Nat) :=
  match e with
  | .ok r => readFs r.files r.reconstructed_image_path
  | .error _ => none

/-- The bytes found at the reconstructed text path of a successful unpack. -/
def unpackReadText (e : Except PyError UnpackResult) : Option (List Nat) :=
  match e with
  | .ok r => readFs r.files r.reconstructed_text_path
  | .error _ => none

/-! ## Claim theorems -/

/-- Claim C10: pack leaves the layout dictionary handle unchanged: the
dictionary state returned by `pack_newspaper_page` is the state it was
given, because `analyze_page_layout` only reads archetypes through
`get_layout_archetype` and never adds or saves any. -/
theorem C10_pack_preserves_gtd (image_path ocr_text_path a t out : List Nat)
    (g : GenerativeTokenDictionary) :
    (pack_newspaper_page image_path ocr_text_path a t g out).gtd_after = g := rfl

/-- The metadata provider interface as the claim states it: split the base
filename on underscores; the first token is the publication and the second
the date; the first token containing "page" gives the page number once
"page" and any extension are stripped; anything absent is "Unknown". -/
def spec_page_metadata (image_path : List Nat) : Json :=
  let filename := os_path_basename image_path
  let parts := pySplit 95 filename
  let unknown := toCP "Unknown"
  Json.obj [(toCP "filename", .str filename),
    (toCP "publication", .str (parts.headD unknown)),
    (toCP "date", .str ((parts.drop 1).headD unknown)),
    (toCP "page_num", .str (((parts.find? (fun p => containsSeq (toCP "page") p)).map
      (fun p => (pyRemoveAll (toCP "page") p).takeWhile (fun c => c != 46))).getD unknown)),
    (toCP "original_path", .str image_path)]

theorem pySplit_ne_nil (sep : Nat) (l : List Nat) : pySplit sep l ≠ [] := by
  cases l with
  | nil => simp [pySplit]
  | cons c cs =>
    unfold pySplit
    rcases pySplit sep cs with _ | ⟨g, gs⟩
    · simp
    · by_cases hc : c = sep
      · simp [hc]
      · simp [hc]

theorem page_num_loop_eq_find (parts : List (List Nat)) :
    page_num_loop parts = ((parts.find? (fun p => containsSeq (toCP "page") p)).map
      (fun p => (pyRemoveAll (toCP "page") p).takeWhile (fun c => c != 46))).getD
        (toCP "Unknown") := by
  induction parts with
  | nil => rfl
  | cons p rest ih =>
    unfold page_num_loop
    by_cases hc : containsSeq (toCP "page") p = true
    · rw [if_pos hc, List.find?_cons_of_pos _ hc]
      rfl
    · rw [if_neg hc, List.find?_cons_of_neg _ (by simpa using hc), ih]

/-- Claim C9: for every asset path, the metadata the provider derives agrees
field for field with the filename convention stated in the spec: tokens of
the base name split on underscores, first token the publication, second the
date, the first token containing "page" yielding the page number after
stripping "page" and the extension, absent components defaulting to
"Unknown". -/
theorem C9_metadata_convention (image_path : List Nat) :
    extract_image_metadata image_path = spec_page_metadata image_path := by
  unfold extract_image_metadata spec_page_metadata
  rcases hps : pySplit 95 (os_path_basename image_path) with _ | ⟨p, rest⟩
  · exact absurd hps (pySplit_ne_nil _ _)
  · rcases rest with _ | ⟨d, rest2⟩
    · simp only [hps, List.headD, List.drop, page_num_loop_eq_find]
    · simp only [hps, List.headD, List.drop, page_num_loop_eq_find]

/-- Claim C6: the codec inverse law. For every byte sequence, including the
empty one, feeding the chunked compression stream of `pack_newspaper_page`
into the chunked decompression stream of `unpack_newspaper_page` gives back
exactly the input. The codec itself is modelled from spec section 4.2, the
Zstandard library not being part of this repository. -/
theorem C6_codec_inverse (x : List Nat) (hx : allBytes x = true) :
    decompressStream (compressStream x) = .ok x :=
  decompressStream_compressStream x

theorem C6_codec_inverse_witness :
    allBytes [] = true ∧ decompressStream (compressStream []) = .ok [] :=
  ⟨by decide, C6_codec_inverse [] (by decide)⟩

/-- Claim C7: modelled from spec section 4.2 (the Zstandard library is not
part of this repository): whenever the archive bytes handed to
`unpack_newspaper_page` are not the codec image of any input - in
particular whenever they are a strict prefix of a valid compressed frame,
as a partially written file would be - the call fails with the
decompression error and touches nothing else. -/
theorem C7_decompression_error (y output_dir : List Nat) :
    ((∀ x : List Nat, compressStream x ≠ y) →
      unpack_newspaper_page y output_dir = .error .zstdError) ∧
    (∀ x tail : List Nat, tail ≠ [] → y ++ tail = compressStream x →
      unpack_newspaper_page y output_dir = .error .zstdError) := by
  constructor
  · intro hnone
    rcases hdec : decompressStream y with e | d
    · unfold unpack_newspaper_page
      rw [hdec]
    · exfalso
      unfold decompressStream at hdec
      rcases hz : zstdDecompress y with e2 | d2
      · rw [hz] at hdec
        exact absurd hdec (by simp [Except.map])
      · have hc : zstdCompress d2 = y := zstdDecompress_ok y d2 hz
        exact hnone d2 (by rw [compressStream_eq]; exact hc)
  · intro x tail htail hpref
    rcases hdec : decompressStream y with e | d
    · unfold unpack_newspaper_page
      rw [hdec]
    · exfalso
      unfold decompressStream at hdec
      rcases hz : zstdDecompress y with e2 | d2
      · rw [hz] at hdec
        exact absurd hdec (by simp [Except.map])
      · have hc : zstdCompress d2 = y := zstdDecompress_ok y d2 hz
        rw [compressStream_eq] at hpref
        rw [← hc] at hpref
        exact htail (zstdCompress_left_cancel d2 x tail hpref).2

theorem C7_decompression_error_witness :
    (List.drop 4 (compressStream []) ≠ [] ∧
      List.take 4 (compressStream []) ++ List.drop 4 (compressStream []) =
        compressStream []) ∧
    unpack_newspaper_page (List.take 4 (compressStream [])) [] = .error .zstdError :=
  ⟨⟨by decide, by decide⟩,
    (C7_decompression_error (List.take 4 (compressStream [])) []).2 []
      (List.drop 4 (compressStream [])) (by decide) (by decide)⟩

/-- Claim C5: deserialisation is a left inverse of serialisation. For every
well-formed manifest document, every byte string (embedded NUL bytes
included) and every Unicode text, deserialising the serialised bundle
returns the manifest, the bytes and the text unchanged. -/
theorem C5_serializer_inverse (m : Json) (a t : List Nat) (hm : wfJson m = true)
    (ha : allBytes a = true) (ht : scalarOk t = true) :
    deserialize_bundle (serialize_bundle m a t) = .ok (m, a, t) :=
  deserialize_serialize m a t hm ha ht

theorem C5_serializer_inverse_witness :
    (wfJson (Json.obj [(toCP "version", Json.str (toCP "1.0")),
        (toCP "layout_info", Json.obj [])]) = true ∧
      allBytes [0, 255, 0, 7] = true ∧
      scalarOk (toCP "héllo ✓") = true) ∧
    deserialize_bundle (serialize_bundle
      (Json.obj [(toCP "version", Json.str (toCP "1.0")),
        (toCP "layout_info", Json.obj [])]) [0, 255, 0, 7] (toCP "héllo ✓")) =
      .ok (Json.obj [(toCP "version", Json.str (toCP "1.0")),
        (toCP "layout_info", Json.obj [])], [0, 255, 0, 7], toCP "héllo ✓") :=
  ⟨⟨by decide, by decide, by decide⟩,
    C5_serializer_inverse _ _ _ (by decide) (by decide) (by decide)⟩

/-- A lowercase hex digit, as a code point. -/
def hexDigitLower (c : Nat) : Bool :=
  (48 ≤ c && c ≤ 57) || (97 ≤ c && c ≤ 102)

theorem sha256hex_all_hex (m : List Nat) : (sha256hex m).all hexDigitLower = true := by
  rw [List.all_eq_true]
  intro c hc
  have h := sha256hex_class m c hc
  unfold hexDigitLower
  rcases h with ⟨h1, h2⟩ | ⟨h1, h2⟩ <;> simp [h1, h2]

/-- Claim C8 counterexample: the top-level keys of the pre-compression
bundle are not `manifest`, `asset_bytes_b64`, `text_bytes_b64`; the payload
keys are actually named `original_image_b64` and `original_text_b64`. -/
theorem C8_counterexample :
    topKeys (bundle_data (seed_manifest (toCP "i") (toCP "t") [7] (toCP "x")
        (analyze_page_layout (toCP "i") (toCP "t") ⟨Json.obj []⟩).1) [7]
        (utf8Encode (toCP "x"))) ≠
      [toCP "manifest", toCP "asset_bytes_b64", toCP "text_bytes_b64"] := by
  decide

/-- Claim C8 (amended): the pre-compression bundle produced by pack is the
UTF-8 encoding of a JSON document whose top-level keys are `manifest`,
`original_image_b64` and `original_text_b64`, the two payloads being the
base64 strings of the asset bytes and of the UTF-8 text bytes; the manifest
carries `version`, `soulzip_spec`, `page_metadata`, `image_filename`,
`text_filename`, `image_hash`, `text_hash` and `layout_info`, the two
hashes being 64-character lowercase hex strings. -/
theorem C8_bundle_shape (image_path ocr_text_path a t : List Nat) (li : Json) :
    serialized_bundle (seed_manifest image_path ocr_text_path a t li) a
        (utf8Encode t) =
      utf8Encode (render (bundle_data
        (seed_manifest image_path ocr_text_path a t li) a (utf8Encode t))) ∧
    topKeys (bundle_data (seed_manifest image_path ocr_text_path a t li) a
        (utf8Encode t)) =
      [toCP "manifest", toCP "original_image_b64", toCP "original_text_b64"] ∧
    jsonGet (bundle_data (seed_manifest image_path ocr_text_path a t li) a
        (utf8Encode t)) (toCP "original_image_b64") =
      some (.str (b64encode a)) ∧
    jsonGet (bundle_data (seed_manifest image_path ocr_text_path a t li) a
        (utf8Encode t)) (toCP "original_text_b64") =
      some (.str (b64encode (utf8Encode t))) ∧
    jsonGet (bundle_data (seed_manifest image_path ocr_text_path a t li) a
        (utf8Encode t)) (toCP "manifest") =
      some (seed_manifest image_path ocr_text_path a t li) ∧
    topKeys (seed_manifest image_path ocr_text_path a t li) =
      [toCP "version", toCP "soulzip_spec", toCP "page_metadata",
        toCP "image_filename", toCP "text_filename", toCP "image_hash",
        toCP "text_hash", toCP "layout_info"] ∧
    jsonGet (seed_manifest image_path ocr_text_path a t li) (toCP "image_hash") =
      some (.str (sha256hex a)) ∧
    jsonGet (seed_manifest image_path ocr_text_path a t li) (toCP "text_hash") =
      some (.str (sha256hex (utf8Encode t))) ∧
    (sha256hex a).length = 64 ∧ (sha256hex (utf8Encode t)).length = 64 ∧
    (sha256hex a).all hexDigitLower = true ∧
    (sha256hex (utf8Encode t)).all hexDigitLower = true :=
  ⟨rfl, rfl, bundle_get_image _ _ _, bundle_get_text _ _ _, bundle_get_manifest _ _ _,
    rfl, manifest_get_image_hash image_path ocr_text_path a t li,
    manifest_get_text_hash image_path ocr_text_path a t li,
    sha256hex_length a, sha256hex_length (utf8Encode t),
    sha256hex_all_hex a, sha256hex_all_hex (utf8Encode t)⟩

theorem basename_append_slash (x n : List Nat) (hn : n.contains 47 = false) :
    os_path_basename (x ++ 47 :: n) = n := by
  induction x with
  | nil =>
    rw [List.nil_append]
    show (if n.contains 47 = true then os_path_basename n
      else if (47 : Nat) = 47 then n else 47 :: n) = n
    rw [if_neg (by rw [hn]; exact Bool.false_ne_true), if_pos rfl]
  | cons c x ih =>
    rw [List.cons_append]
    unfold os_path_basename
    rw [if_pos (by
      have : (47 : Nat) ∈ x ++ 47 :: n := List.mem_append_right x (List.mem_cons_self 47 _)
      simpa [List.contains_eq_any_beq, List.any_eq_true] using ⟨47, this, rfl⟩)]
    exact ih

theorem osjoin_ne_nil_eq (d n : List Nat) (hd : d ≠ []) :
    os_path_join d n = if d.getLast? = some 47 then d ++ n else d ++ 47 :: n := by
  unfold os_path_join
  cases d with
  | nil => exact absurd rfl hd
  | cons a as => rfl

theorem basename_join (d n : List Nat) (hn : n.contains 47 = false) :
    os_path_basename (os_path_join d n) = n := by
  rcases List.eq_nil_or_concat d with rfl | ⟨l, b, rfl⟩
  · exact os_path_basename_of_no47 n hn
  · simp only [List.concat_eq_append]
    rw [osjoin_ne_nil_eq _ _ (by simp)]
    rcases eq_or_ne b 47 with rfl | hb
    · rw [if_pos (by simp), List.append_assoc]
      exact basename_append_slash l n hn
    · rw [if_neg (by simp [hb])]
      exact basename_append_slash (l ++ [b]) n hn

/-- Claim C3: path safety of unpack. The base-name model strips
`../../etc/passwd` to `passwd`; and every path written by a successful
`unpack_newspaper_page` is the caller-supplied output directory joined with
a single slash-free, non-empty, non-dot path component, so no manifest
filename can escape the output directory. -/
theorem C3_path_safety :
    os_path_basename (toCP "../../etc/passwd") = toCP "passwd" ∧
    ∀ archive output_dir : List Nat, ∀ r : UnpackResult,
      unpack_newspaper_page archive output_dir = .ok r →
      (r.reconstructed_image_path =
          os_path_join output_dir (os_path_basename r.reconstructed_image_path) ∧
        (os_path_basename r.reconstructed_image_path).contains 47 = false ∧
        degenerateName (os_path_basename r.reconstructed_image_path) = false) ∧
      (r.reconstructed_text_path =
          os_path_join output_dir (os_path_basename r.reconstructed_text_path) ∧
        (os_path_basename r.reconstructed_text_path).contains 47 = false ∧
        degenerateName (os_path_basename r.reconstructed_text_path) = false) := by
  refine ⟨by decide, ?_⟩
  intro archive output_dir r h
  unfold unpack_newspaper_page at h
  split at h
  · simp at h
  · split at h
    · simp at h
    · split at h
      · simp at h
      · rename_i manifest oib otc _ imf _
        split at h
        · simp at h
        · rename_i txf _
          dsimp only at h
          split at h
          · simp at h
          · rename_i hdeg
            injection h with h
            subst h
            simp only [Bool.or_eq_true, not_or] at hdeg
            obtain ⟨h1, h2⟩ := hdeg
            rw [Bool.not_eq_true] at h1 h2
            have hbi := basename_join output_dir (os_path_basename imf)
              (os_path_basename_no47 imf)
            have hbt := basename_join output_dir (os_path_basename txf)
              (os_path_basename_no47 txf)
            dsimp only
            rw [hbi, hbt]
            exact ⟨⟨rfl, os_path_basename_no47 imf, h1⟩,
              rfl, os_path_basename_no47 txf, h2⟩
        · simp at h
      · simp at h

theorem C3_path_safety_witness :
    unpack_newspaper_page
        (compressStream (serialize_bundle
          (Json.obj [(toCP "image_filename", Json.str (toCP "../../etc/passwd")),
            (toCP "text_filename", Json.str (toCP "t"))]) [7] (toCP "x")))
        (toCP "d") =
      .ok { manifest := Json.obj
              [(toCP "image_filename", Json.str (toCP "../../etc/passwd")),
                (toCP "text_filename", Json.str (toCP "t"))]
            reconstructed_image_path := toCP "d/passwd"
            reconstructed_text_path := toCP "d/t"
            files := [(toCP "d/passwd", [7]), (toCP "d/t", [120])] } ∧
    ((toCP "d/passwd" : List Nat) =
        os_path_join (toCP "d") (os_path_basename (toCP "d/passwd")) ∧
      (os_path_basename (toCP "d/passwd")).contains 47 = false ∧
      degenerateName (os_path_basename (toCP "d/passwd")) = false) ∧
    ((toCP "d/t" : List Nat) =
        os_path_join (toCP "d") (os_path_basename (toCP "d/t")) ∧
      (os_path_basename (toCP "d/t")).contains 47 = false ∧
      degenerateName (os_path_basename (toCP "d/t")) = false) := by
  have h1 : unpack_newspaper_page
      (compressStream (serialize_bundle
        (Json.obj [(toCP "image_filename", Json.str (toCP "../../etc/passwd")),
          (toCP "text_filename", Json.str (toCP "t"))]) [7] (toCP "x")))
      (toCP "d") =
    .ok { manifest := Json.obj
            [(toCP "image_filename", Json.str (toCP "../../etc/passwd")),
              (toCP "text_filename", Json.str (toCP "t"))]
          reconstructed_image_path := toCP "d/passwd"
          reconstructed_text_path := toCP "d/t"
          files := [(toCP "d/passwd", [7]), (toCP "d/t", [120])] } := by
    unfold unpack_newspaper_page
    rw [decompressStream_compressStream]
    dsimp only
    rw [show deserialize_bundle (serialize_bundle
        (Json.obj [(toCP "image_filename", Json.str (toCP "../../etc/passwd")),
          (toCP "text_filename", Json.str (toCP "t"))]) [7] (toCP "x")) =
      .ok (Json.obj [(toCP "image_filename", Json.str (toCP "../../etc/passwd")),
          (toCP "text_filename", Json.str (toCP "t"))], [7], toCP "x") from
      deserialize_serialize _ _ _ (by decide) (by decide) (by decide)]
    rfl
  exact ⟨h1, C3_path_safety.2 _ (toCP "d") _ h1⟩

/-- The bundle document: decompressed bytes decoded as UTF-8 and parsed as
JSON. -/
def bundleOf (data : List Nat) : Option Json :=
  match utf8Decode data with
  | none => none
  | some cps => json_loads cps

/-- The string payload of a JSON value, if it is one. -/
def asStr : Json → Option (List Nat)
  | .str s => some s
  | _ => none

/-- When deserialization actually fails, stated over the stage functions:
the bytes are not a UTF-8 JSON document (duplicate keys and the
NaN/Infinity constants are fine), a required key is absent, a payload is
not a string, the base64 decode of a payload fails (a non-ASCII code point
or an unterminated alphabet quad - mere non-canonical padding does not
fail), or the decoded text payload is not valid UTF-8. -/
def deserializeFailCondition (data : List Nat) : Prop :=
  bundleOf data = none ∨
  ∃ b : Json, bundleOf data = some b ∧
    (jsonGet b (toCP "original_image_b64") = none ∨
     jsonGet b (toCP "original_text_b64") = none ∨
     jsonGet b (toCP "manifest") = none ∨
     (∃ v, jsonGet b (toCP "original_image_b64") = some v ∧ asStr v = none) ∨
     (∃ v, jsonGet b (toCP "original_text_b64") = some v ∧ asStr v = none) ∨
     (∃ s, jsonGet b (toCP "original_image_b64") = some (.str s) ∧
       exceptIsOk (pyB64Decode s) = false) ∨
     (∃ s, jsonGet b (toCP "original_text_b64") = some (.str s) ∧
       exceptIsOk (pyB64Decode s) = false) ∨
     (∃ s tb, jsonGet b (toCP "original_text_b64") = some (.str s) ∧
       pyB64Decode s = .ok tb ∧ utf8Decode tb = none))

/-- Claim C4 (amended): deserialization fails exactly when the bytes are
not a UTF-8 JSON document, a required key (`manifest`, `original_image_b64`,
`original_text_b64`) is absent, a payload value is not a string, the
base64 decode of a payload fails (a non-ASCII code point, or data
characters left in an unterminated quad), or the decoded text payload is
not valid UTF-8. Non-canonical base64, contrary to the claim, is accepted
(see the counterexample). -/
theorem C4_malformed_bundle (data : List Nat) :
    exceptIsOk (deserialize_bundle data) = false ↔ deserializeFailCondition data := by
  unfold deserialize_bundle deserializeFailCondition bundleOf
  rcases hu : utf8Decode data with _ | cps
  · exact iff_of_true rfl (Or.inl rfl)
  · dsimp only
    rcases hj : json_loads cps with _ | b
    · exact iff_of_true rfl (Or.inl rfl)
    · dsimp only
      rcases hgi : jsonGet b (toCP "original_image_b64") with _ | v
      · exact iff_of_true rfl (Or.inr ⟨b, rfl, Or.inl hgi⟩)
      · cases v with
        | str istr =>
          dsimp only
          unfold safe_b64_decode
          rcases hd : pyB64Decode istr with e | ib
          · exact iff_of_true rfl (Or.inr ⟨b, rfl, Or.inr (Or.inr (Or.inr (Or.inr
              (Or.inr (Or.inl ⟨istr, hgi, by rw [hd]; rfl⟩)))))⟩)
          · dsimp only
            rcases hgt : jsonGet b (toCP "original_text_b64") with _ | w
            · exact iff_of_true rfl (Or.inr ⟨b, rfl, Or.inr (Or.inl hgt)⟩)
            · cases w with
              | str tstr =>
                dsimp only
                rcases hd2 : pyB64Decode tstr with e2 | tb
                · exact iff_of_true rfl (Or.inr ⟨b, rfl, Or.inr (Or.inr (Or.inr
                    (Or.inr (Or.inr (Or.inr (Or.inl ⟨tstr, hgt, by rw [hd2]; rfl⟩))))))⟩)
                · dsimp only
                  rcases hu2 : utf8Decode tb with _ | txt
                  · exact iff_of_true rfl (Or.inr ⟨b, rfl, Or.inr (Or.inr (Or.inr
                      (Or.inr (Or.inr (Or.inr (Or.inr ⟨tstr, tb, hgt, hd2, hu2⟩))))))⟩)
                  · rcases hgm : jsonGet b (toCP "manifest") with _ | m
                    · exact iff_of_true rfl (Or.inr ⟨b, rfl, Or.inr (Or.inr
                        (Or.inl hgm))⟩)
                    · refine iff_of_false (by simp [exceptIsOk]) ?_
                      rintro (hnone | ⟨b2, hb2, hD⟩)
                      · exact Option.noConfusion hnone
                      · rw [Option.some.injEq] at hb2
                        subst hb2
                        rcases hD with h | h | h | ⟨v, hv, hvs⟩ | ⟨v, hv, hvs⟩ |
                          ⟨s, hs, hsb⟩ | ⟨s, hs, hsb⟩ | ⟨s, tb2, hs, hsb, hsu⟩
                        · rw [hgi] at h; exact Option.noConfusion h
                        · rw [hgt] at h; exact Option.noConfusion h
                        · rw [hgm] at h; exact Option.noConfusion h
                        · rw [hgi, Option.some.injEq] at hv
                          subst hv
                          simp [asStr] at hvs
                        · rw [hgt, Option.some.injEq] at hv
                          subst hv
                          simp [asStr] at hvs
                        · rw [hgi, Option.some.injEq] at hs
                          cases hs
                          rw [hd] at hsb
                          simp [exceptIsOk] at hsb
                        · rw [hgt, Option.some.injEq] at hs
                          cases hs
                          rw [hd2] at hsb
                          simp [exceptIsOk] at hsb
                        · rw [hgt, Option.some.injEq] at hs
                          cases hs
                          rw [hd2, Except.ok.injEq] at hsb
                          subst hsb
                          rw [hu2] at hsu
                          exact Option.noConfusion hsu
              | num l => exact iff_of_true rfl (Or.inr ⟨b, rfl, Or.inr (Or.inr
                  (Or.inr (Or.inr (Or.inl ⟨_, hgt, rfl⟩))))⟩)
              | bool v => exact iff_of_true rfl (Or.inr ⟨b, rfl, Or.inr (Or.inr
                  (Or.inr (Or.inr (Or.inl ⟨_, hgt, rfl⟩))))⟩)
              | null => exact iff_of_true rfl (Or.inr ⟨b, rfl, Or.inr (Or.inr
                  (Or.inr (Or.inr (Or.inl ⟨_, hgt, rfl⟩))))⟩)
              | arr xs => exact iff_of_true rfl (Or.inr ⟨b, rfl, Or.inr (Or.inr
                  (Or.inr (Or.inr (Or.inl ⟨_, hgt, rfl⟩))))⟩)
              | obj kvs => exact iff_of_true rfl (Or.inr ⟨b, rfl, Or.inr (Or.inr
                  (Or.inr (Or.inr (Or.inl ⟨_, hgt, rfl⟩))))⟩)
        | num l => exact iff_of_true rfl (Or.inr ⟨b, rfl, Or.inr (Or.inr (Or.inr
            (Or.inl ⟨_, hgi, rfl⟩)))⟩)
        | bool v => exact iff_of_true rfl (Or.inr ⟨b, rfl, Or.inr (Or.inr (Or.inr
            (Or.inl ⟨_, hgi, rfl⟩)))⟩)
        | null => exact iff_of_true rfl (Or.inr ⟨b, rfl, Or.inr (Or.inr (Or.inr
            (Or.inl ⟨_, hgi, rfl⟩)))⟩)
        | arr xs => exact iff_of_true rfl (Or.inr ⟨b, rfl, Or.inr (Or.inr (Or.inr
            (Or.inl ⟨_, hgi, rfl⟩)))⟩)
        | obj kvs => exact iff_of_true rfl (Or.inr ⟨b, rfl, Or.inr (Or.inr (Or.inr
            (Or.inl ⟨_, hgi, rfl⟩)))⟩)

/-- Claim C4 counterexample: a bundle whose image payload is the
non-canonical base64 text `QR==` (trailing bits set; the canonical encoding
of the byte 65 is `QQ==`) deserializes successfully instead of failing. -/
theorem C4_counterexample :
    deserialize_bundle (utf8Encode (render (Json.obj
      [(toCP "manifest", Json.num (toCP "0")),
       (toCP "original_image_b64", Json.str (toCP "QR==")),
       (toCP "original_text_b64", Json.str (toCP "QQ=="))]))) =
      .ok (Json.num (toCP "0"), [65], [65]) ∧
    b64encode [65] = toCP "QQ==" ∧ (toCP "QR==" : List Nat) ≠ toCP "QQ==" := by
  refine ⟨?_, by decide, by decide⟩
  rfl

theorem join_right_inj (d n1 n2 : List Nat) (h1 : n1.contains 47 = false)
    (h2 : n2.contains 47 = false) (hne : n1 ≠ n2) :
    os_path_join d n1 ≠ os_path_join d n2 := by
  intro hcontra
  apply hne
  rw [← basename_join d n1 h1, ← basename_join d n2 h2, hcontra]

/-- Claim C1: the lossless round trip. Packing a page and unpacking the
resulting archive succeeds, the reconstructed asset file holds exactly the
original asset bytes, and the reconstructed text file holds exactly the
UTF-8 encoding of the original text, which decodes back to that text. -/
theorem C1_round_trip (image_path ocr_text_path a t : List Nat)
    (g : GenerativeTokenDictionary) (out output_dir : List Nat)
    (hip : scalarOk image_path = true) (htp : scalarOk ocr_text_path = true)
    (ha : allBytes a = true) (ht : scalarOk t = true)
    (hd1 : degenerateName (os_path_basename image_path) = false)
    (hd2 : degenerateName (os_path_basename ocr_text_path) = false)
    (hne : os_path_basename image_path ≠ os_path_basename ocr_text_path) :
    exceptIsOk (unpack_newspaper_page
      (pack_newspaper_page image_path ocr_text_path a t g out).written_archive
      output_dir) = true ∧
    unpackReadImage (unpack_newspaper_page
      (pack_newspaper_page image_path ocr_text_path a t g out).written_archive
      output_dir) = some a ∧
    unpackReadText (unpack_newspaper_page
      (pack_newspaper_page image_path ocr_text_path a t g out).written_archive
      output_dir) = some (utf8Encode t) ∧
    utf8Decode (utf8Encode t) = some t := by
  have hup := unpack_pack image_path ocr_text_path a t g out output_dir
    hip htp ha ht hd1 hd2
  rw [hup]
  have hpne : os_path_join output_dir (os_path_basename ocr_text_path) ≠
      os_path_join output_dir (os_path_basename image_path) :=
    join_right_inj output_dir _ _ (os_path_basename_no47 ocr_text_path)
      (os_path_basename_no47 image_path) (Ne.symm hne)
  refine ⟨rfl, ?_, ?_, utf8Decode_encode t ht⟩
  · show readFs [(os_path_join output_dir (os_path_basename image_path), a),
      (os_path_join output_dir (os_path_basename ocr_text_path), utf8Encode t)]
      (os_path_join output_dir (os_path_basename image_path)) = some a
    simp only [readFs]
    rw [if_neg hpne]
    simp
  · show readFs [(os_path_join output_dir (os_path_basename image_path), a),
      (os_path_join output_dir (os_path_basename ocr_text_path), utf8Encode t)]
      (os_path_join output_dir (os_path_basename ocr_text_path)) = some (utf8Encode t)
    simp only [readFs]
    simp

theorem C1_round_trip_witness :
    (scalarOk (toCP "i.png") = true ∧ scalarOk (toCP "t.txt") = true ∧
      allBytes [7, 0, 255] = true ∧ scalarOk (toCP "HEADLINE") = true ∧
      degenerateName (os_path_basename (toCP "i.png")) = false ∧
      degenerateName (os_path_basename (toCP "t.txt")) = false ∧
      os_path_basename (toCP "i.png") ≠ os_path_basename (toCP "t.txt")) ∧
    exceptIsOk (unpack_newspaper_page
      (pack_newspaper_page (toCP "i.png") (toCP "t.txt") [7, 0, 255]
        (toCP "HEADLINE") ⟨Json.obj []⟩ (toCP "o")).written_archive
      (toCP "d")) = true ∧
    unpackReadImage (unpack_newspaper_page
      (pack_newspaper_page (toCP "i.png") (toCP "t.txt") [7, 0, 255]
        (toCP "HEADLINE") ⟨Json.obj []⟩ (toCP "o")).written_archive
      (toCP "d")) = some [7, 0, 255] ∧
    unpackReadText (unpack_newspaper_page
      (pack_newspaper_page (toCP "i.png") (toCP "t.txt") [7, 0, 255]
        (toCP "HEADLINE") ⟨Json.obj []⟩ (toCP "o")).written_archive
      (toCP "d")) = some (utf8Encode (toCP "HEADLINE")) ∧
    utf8Decode (utf8Encode (toCP "HEADLINE")) = some (toCP "HEADLINE") :=
  ⟨⟨by decide, by decide, by decide, by decide, by decide, by decide, by decide⟩,
    C1_round_trip (toCP "i.png") (toCP "t.txt") [7, 0, 255] (toCP "HEADLINE")
      ⟨Json.obj []⟩ (toCP "o") (toCP "d") (by decide) (by decide) (by decide)
      (by decide) (by decide) (by decide) (by decide)⟩

/-- Claim C2 counterexample: after a successful round trip of the one-char
text `é` (whose reconstructed text file holds the bytes 195, 169), changing
the first text-file byte to 255 makes the validator raise
UnicodeDecodeError - the text file is reopened in text mode - instead of
returning a false text flag with the image flag unaffected. -/
theorem C2_counterexample :
    unpackedFiles (unpack_newspaper_page
        (pack_newspaper_page (toCP "i") (toCP "t") [7] (toCP "é") ⟨Json.obj []⟩
          (toCP "o")).written_archive (toCP "d")) =
      some [(toCP "d/i", [7]), (toCP "d/t", [195, 169])] ∧
    validate_reconstruction
        (seed_manifest (toCP "i") (toCP "t") [7] (toCP "é")
          (analyze_page_layout (toCP "i") (toCP "t") ⟨Json.obj []⟩).1)
        [7] [255, 169] =
      .error .unicodeDecodeError := by
  have hup := unpack_pack (toCP "i") (toCP "t") [7] (toCP "é") ⟨Json.obj []⟩
    (toCP "o") (toCP "d") (by decide) (by decide) (by decide) (by decide)
    (by decide) (by decide)
  constructor
  · rw [hup]
    rfl
  · unfold validate_reconstruction
    rw [manifest_get_image_hash]
    rfl

/-- The newline subtlety the flag semantics must respect: corrupting the
one line-feed byte of the reconstructed text file into a carriage return
is undone by the universal-newlines translation of the text-mode read, so
the validator still reports both flags true and the corruption goes
undetected (verified behaviour of CPython's text-mode open). -/
theorem validate_newline_corruption_undetected (image_path ocr_text_path a : List Nat)
    (li : Json) :
    validate_reconstruction
        (seed_manifest image_path ocr_text_path a [97, 10, 98] li)
        a [97, 13, 98] = .ok ⟨true, true⟩ := by
  unfold validate_reconstruction
  rw [manifest_get_image_hash, manifest_get_text_hash]
  rw [show utf8Decode [97, 13, 98] = some [97, 13, 98] from rfl]
  dsimp only
  rw [show universalNewlines [97, 13, 98] = [97, 10, 98] from rfl]
  simp

/-- Claim C2 (amended): after a successful pack-then-unpack round trip of a
carriage-return-free text, the validator returns both flags true; changing
one byte of the reconstructed asset (to a digest-changing value) flips only
the asset flag; and changing the reconstructed text file to different
bytes flips only the text flag PROVIDED the corrupted bytes are still
valid UTF-8 and their decoding, after the universal-newlines translation
of the text-mode read, has a different digest. Outside that proviso the
flag semantics fail: a corruption that breaks UTF-8 validity raises
UnicodeDecodeError (see the counterexample), and one that only turns a
line feed into a carriage return is undone by the translation, leaving the
text flag true. -/
theorem C2_validator_flags (image_path ocr_text_path a t : List Nat)
    (g : GenerativeTokenDictionary) (out output_dir : List Nat)
    (i b : Nat) (tb t2 : List Nat)
    (hip : scalarOk image_path = true) (htp : scalarOk ocr_text_path = true)
    (ha : allBytes a = true) (ht : scalarOk t = true)
    (hd1 : degenerateName (os_path_basename image_path) = false)
    (hd2 : degenerateName (os_path_basename ocr_text_path) = false)
    (htcr : t.contains 13 = false)
    (hi : i < a.length) (hb : b < 256)
    (hbne : sha256hex (a.set i b) ≠ sha256hex a)
    (htb : utf8Decode tb = some t2)
    (htne : sha256hex (utf8Encode (universalNewlines t2)) ≠
      sha256hex (utf8Encode t)) :
    unpackedManifest (unpack_newspaper_page
        (pack_newspaper_page image_path ocr_text_path a t g out).written_archive
        output_dir) =
      some (seed_manifest image_path ocr_text_path a t
        (analyze_page_layout image_path ocr_text_path g).1) ∧
    validate_reconstruction
        (seed_manifest image_path ocr_text_path a t
          (analyze_page_layout image_path ocr_text_path g).1)
        a (utf8Encode t) = .ok ⟨true, true⟩ ∧
    validate_reconstruction
        (seed_manifest image_path ocr_text_path a t
          (analyze_page_layout image_path ocr_text_path g).1)
        (a.set i b) (utf8Encode t) = .ok ⟨false, true⟩ ∧
    validate_reconstruction
        (seed_manifest image_path ocr_text_path a t
          (analyze_page_layout image_path ocr_text_path g).1)
        a tb = .ok ⟨true, false⟩ := by
  have hup := unpack_pack image_path ocr_text_path a t g out output_dir
    hip htp ha ht hd1 hd2
  refine ⟨by rw [hup]; rfl, ?_, ?_, ?_⟩
  · unfold validate_reconstruction
    rw [manifest_get_image_hash, manifest_get_text_hash, utf8Decode_encode t ht]
    dsimp only
    rw [universalNewlines_no13 t htcr]
    simp
  · unfold validate_reconstruction
    rw [manifest_get_image_hash, manifest_get_text_hash, utf8Decode_encode t ht]
    dsimp only
    rw [universalNewlines_no13 t htcr]
    rw [show (generate_sha256_hash (.bytes (a.set i b)) ==
        generate_sha256_hash (.bytes a)) = false from beq_eq_false_iff_ne.mpr hbne]
    simp
  · unfold validate_reconstruction
    rw [manifest_get_image_hash, manifest_get_text_hash, htb]
    dsimp only
    rw [show (generate_sha256_hash (.str (universalNewlines t2)) ==
        generate_sha256_hash (.str t)) = false from beq_eq_false_iff_ne.mpr htne]
    simp

theorem C2_validator_flags_witness :
    (scalarOk (toCP "i") = true ∧ scalarOk (toCP "t") = true ∧
      allBytes [7] = true ∧ scalarOk (toCP "a") = true ∧
      degenerateName (os_path_basename (toCP "i")) = false ∧
      degenerateName (os_path_basename (toCP "t")) = false ∧
      (toCP "a").contains 13 = false ∧
      0 < [7].length ∧ 8 < 256 ∧
      sha256hex ([7].set 0 8) ≠ sha256hex [7] ∧
      utf8Decode [98] = some [98] ∧
      sha256hex (utf8Encode (universalNewlines [98])) ≠
        sha256hex (utf8Encode (toCP "a"))) ∧
    unpackedManifest (unpack_newspaper_page
        (pack_newspaper_page (toCP "i") (toCP "t") [7] (toCP "a") ⟨Json.obj []⟩
          (toCP "o")).written_archive (toCP "d")) =
      some (seed_manifest (toCP "i") (toCP "t") [7] (toCP "a")
        (analyze_page_layout (toCP "i") (toCP "t") ⟨Json.obj []⟩).1) ∧
    validate_reconstruction
        (seed_manifest (toCP "i") (toCP "t") [7] (toCP "a")
          (analyze_page_layout (toCP "i") (toCP "t") ⟨Json.obj []⟩).1)
        [7] (utf8Encode (toCP "a")) = .ok ⟨true, true⟩ ∧
    validate_reconstruction
        (seed_manifest (toCP "i") (toCP "t") [7] (toCP "a")
          (analyze_page_layout (toCP "i") (toCP "t") ⟨Json.obj []⟩).1)
        ([7].set 0 8) (utf8Encode (toCP "a")) = .ok ⟨false, true⟩ ∧
    validate_reconstruction
        (seed_manifest (toCP "i") (toCP "t") [7] (toCP "a")
          (analyze_page_layout (toCP "i") (toCP "t") ⟨Json.obj []⟩).1)
        [7] [98] = .ok ⟨true, false⟩ :=
  ⟨⟨by decide, by decide, by decide, by decide, by decide, by decide, by decide,
      by decide, by decide, by decide, by decide, by decide⟩,
    C2_validator_flags (toCP "i") (toCP "t") [7] (toCP "a") ⟨Json.obj []⟩
      (toCP "o") (toCP "d") 0 8 [98] [98] (by decide) (by decide) (by decide)
      (by decide) (by decide) (by decide) (by decide) (by decide) (by decide)
      (by decide) (by decide) (by decide)⟩
